import Mathlib

/-!
# Verification of the feed-normalization core of `script.js`

This file gives a shallow embedding of the data-reshaping pipeline of the
dashboard script: the spreadsheet-serial date decoder `excelSerialToDate`,
the text date decoder `parseDateTimeString`, the feed normalizer
`parseWellsFromData`, and the change gate (inequality of JSON
serialisations) used by `fetchData`.

Modelling conventions, chosen once and used throughout:

* JSON values are modelled by `JSValue`.  Numbers are exact scaled
  decimals `m / 10^e` (`vNum m e`); this is the exact semantics of JSON
  numeric literals.  IEEE-754 rounding, overflow to `Infinity` and the
  distinction between `0` and `-0` are outside the model.  Missing object
  keys (JS `undefined`) are modelled as `Option.none` at use sites.
* Strings are lists of characters (`Str`); `String` literals are
  converted with `.data`.
* A JS `Date` object is its time value: `some ts` (milliseconds since the
  Unix epoch) for a valid date, `none` for an Invalid `Date`.  The host
  timezone is modelled as a fixed offset `o` in minutes, with local time
  `= UTC + o` minutes (daylight-saving transitions are outside the
  model).  The calendar decomposition implements ECMAScript's proleptic
  Gregorian `YearFromTime`/`MonthFromTime`/`DateFromTime` and `MakeDay`,
  including `TimeClip` (the 8.64e15 ms range) and the 0..99 → 1900+year
  rule of the `Date` constructor.
* Functions that can throw are modelled in `Except Unit`; the only
  throwing site in the translated code is `(row.Fila || '').trim()`,
  which throws a `TypeError` when `row.Fila` is truthy and not a string.
* Locale-dependent output (`toLocaleDateString('es-AR')`,
  `toLocaleTimeString('es-AR', {hour12:false})`) is modelled as
  `d/m/yyyy` and zero-padded `hh:mm:ss`, and `"Invalid Date"` for an
  invalid date, matching the observable shape of the es-AR formats.
-/

/-! ## Characters and strings -/

/-- Strings as character lists; `String` literals enter via `.data`. -/
abbrev Str := List Char

/-- Whitespace for JS `trim`, `\s` and numeric-prefix skipping: the
ECMAScript WhiteSpace and LineTerminator sets. -/
def isJsWs (c : Char) : Bool :=
  c.toNat = 9 ∨ c.toNat = 10 ∨ c.toNat = 11 ∨ c.toNat = 12 ∨ c.toNat = 13 ∨
  c.toNat = 32 ∨ c.toNat = 160 ∨ c.toNat = 5760 ∨
  (8192 ≤ c.toNat ∧ c.toNat ≤ 8202) ∨ c.toNat = 8232 ∨ c.toNat = 8233 ∨
  c.toNat = 8239 ∨ c.toNat = 8287 ∨ c.toNat = 12288 ∨ c.toNat = 65279

/-- Decimal digit test. -/
def isDigitCh (c : Char) : Bool := 48 ≤ c.toNat ∧ c.toNat ≤ 57

/-- Model of `String.prototype.trim`. -/
def jsTrim (s : Str) : Str :=
  ((s.dropWhile isJsWs).reverse.dropWhile isJsWs).reverse

/-- ASCII upper-casing of one character, the fragment of
`String.prototype.toUpperCase` relevant to the sentinel test `=== 'X'`. -/
def upCh (c : Char) : Char :=
  if 97 ≤ c.toNat ∧ c.toNat ≤ 122 then Char.ofNat (c.toNat - 32) else c

/-- Model of `String.prototype.toUpperCase` (ASCII fragment). -/
def upStr (s : Str) : Str := s.map upCh

mutual
/-- Model of `split(/\s+/)`: pieces of `s` between maximal whitespace
runs, `acc` holding the (reversed) current piece. -/
def splitWsAux : Str → Str → List Str
  | [], acc => [acc.reverse]
  | c :: rest, acc =>
    if isJsWs c then acc.reverse :: splitWsSkip rest else splitWsAux rest (c :: acc)

/-- Consumes the remainder of a whitespace run, then resumes piece
collection. -/
def splitWsSkip : Str → List Str
  | [] => [[]]
  | c :: rest => if isJsWs c then splitWsSkip rest else splitWsAux rest [c]
end

/-- Model of `String.prototype.split(/\s+/)`. -/
def splitWs (s : Str) : List Str := splitWsAux s []

/-- Prefixes a character onto the first piece of a split result. -/
def consHead (d : Char) : List Str → List Str
  | [] => [[d]]
  | l :: ls => (d :: l) :: ls

/-- Model of `String.prototype.split(sep)` for a one-character separator
(used with `'/'` and `':'`). -/
def splitOnCh (c : Char) : Str → List Str
  | [] => [[]]
  | d :: rest => if d = c then [] :: splitOnCh c rest else consHead d (splitOnCh c rest)

/-! ## Decimal digits and integer printing -/

/-- The character of a decimal digit. -/
def digitChar (d : ℕ) : Char := Char.ofNat (48 + d)

/-- Emits the decimal digits of `n` (most significant first) in front of
`acc`; `fuel` bounds the recursion and any `fuel ≥ n` is enough. -/
def natCharsAux : ℕ → ℕ → List Char → List Char
  | 0, n, acc => digitChar n :: acc
  | fuel + 1, n, acc =>
    if n < 10 then digitChar n :: acc
    else natCharsAux fuel (n / 10) (digitChar (n % 10) :: acc)

/-- Decimal digit string of a natural number. -/
def natChars (n : ℕ) : Str := natCharsAux n n []

/-- Decimal digit string of an integer (with `-` sign). -/
def intChars (i : ℤ) : Str :=
  if i < 0 then '-' :: natChars i.natAbs else natChars i.natAbs

/-- Value of a decimal digit string. -/
def digitsVal (ds : Str) : ℕ := ds.foldl (fun a c => 10 * a + (c.toNat - 48)) 0

/-! ## Normalized scaled decimals

A JS number is modelled as `m / 10^e`.  JSON parsing and JS arithmetic
produce canonical representations: `e` is minimal, i.e. `m` is not a
multiple of 10 unless the value is the integer 0 (represented `m = 0`,
`e = 0`). -/

/-- Strips trailing decimal zeros: brings `(m, e)` with value `m / 10^e`
to canonical form.  The first argument is fuel; `e` itself suffices. -/
def normDecAux : ℕ → ℤ → ℕ → ℤ × ℕ
  | 0, m, _ => (m, 0)
  | _ + 1, m, 0 => (m, 0)
  | fuel + 1, m, e + 1 => if m % 10 = 0 then normDecAux fuel (m / 10) e else (m, e + 1)

/-- Canonical form of the scaled decimal `m / 10^e`. -/
def normDec (m : ℤ) (e : ℕ) : ℤ × ℕ := normDecAux e m e

/-- Canonicity of a scaled-decimal representation. -/
def isCanonDec (m : ℤ) (e : ℕ) : Bool := normDec m e = (m, e)

/-! ## parseInt and parseFloat -/

/-- Splits an optional leading `+`/`-` sign, returning `true` for `-`. -/
def splitSign : Str → Bool × Str
  | [] => (false, [])
  | c :: rest =>
    if c = '-' then (true, rest) else if c = '+' then (false, rest) else (false, c :: rest)

/-- Model of `parseInt(s, 10)`: skip whitespace, optional sign, then a
nonempty maximal run of decimal digits; `none` is `NaN`. -/
def jsParseInt (s : Str) : Option ℤ :=
  let t := s.dropWhile isJsWs
  let (neg, t) := splitSign t
  let ds := t.takeWhile isDigitCh
  if ds = [] then none
  else some (if neg then -(digitsVal ds : ℤ) else (digitsVal ds : ℤ))

/-- A JS number that is not `NaN`: a finite scaled decimal or an
infinity.  (`parseFloat` yields an infinity only for the `Infinity`
keyword in this exact-arithmetic model.) -/
inductive JNum where
  | fin (m : ℤ) (e : ℕ) : JNum
  | inf (neg : Bool) : JNum
  deriving DecidableEq

/-- Numeric value of digit strings `ds . fs` times `10 ^ ex`, as a
canonical scaled decimal with sign `neg`. -/
def decOfParts (neg : Bool) (ds fs : Str) (ex : ℤ) : JNum :=
  let d : ℤ := (digitsVal (ds ++ fs) : ℤ)
  let sd : ℤ := if neg then -d else d
  let sc : ℤ := (fs.length : ℤ) - ex
  let p : ℤ × ℕ :=
    if sc ≤ 0 then (sd * (10 : ℤ) ^ (-sc).toNat, 0) else normDec sd sc.toNat
  JNum.fin p.1 p.2

/-- Reads an optional exponent part (`e`/`E`, optional sign, digits);
returns the exponent of the longest valid prefix, 0 when absent. -/
def readExp (t : Str) : ℤ :=
  match t with
  | c :: rest =>
    if c = 'e' ∨ c = 'E' then
      let (eneg, t2) := splitSign rest
      let es := t2.takeWhile isDigitCh
      if es = [] then 0 else if eneg then -(digitsVal es : ℤ) else (digitsVal es : ℤ)
    else 0
  | [] => 0

/-- Model of `parseFloat`: skip whitespace, optional sign, then the
longest prefix of the form `Digits [. Digits] [Exponent]`,
`. Digits [Exponent]` or `Infinity`; `none` is `NaN`. -/
def jsParseFloat (s : Str) : Option JNum :=
  let t := s.dropWhile isJsWs
  let (neg, t) := splitSign t
  if ('I' :: ('n' :: ('f' :: ('i' :: ('n' :: ('i' :: ('t' :: ('y' :: [])))))))).isPrefixOf t then
    some (JNum.inf neg)
  else
    let ds := t.takeWhile isDigitCh
    let t2 := t.drop ds.length
    match t2 with
    | '.' :: afterDot =>
      let fs := afterDot.takeWhile isDigitCh
      if ds = [] ∧ fs = [] then none
      else some (decOfParts neg ds fs (readExp (afterDot.drop fs.length)))
    | _ =>
      if ds = [] then none
      else some (decOfParts neg ds [] (readExp t2))

/-! ## The proleptic Gregorian calendar

ECMAScript defines `YearFromTime`/`MonthFromTime`/`DateFromTime`
declaratively over the proleptic Gregorian calendar.  `yearMonthDayOfDoe`
and `civilFromDays` compute that decomposition (a standard era-based
algorithm), and `daysFromCivil` is the inverse used by `MakeDay`.
`daysFromCivil_civilFromDays` below proves they are mutually inverse, and
concrete evaluations pin known dates. -/

/-- Decomposes a day index within a 400-year era (0 ≤ doe < 146097,
era beginning March 1) into (year-of-era, month 1..12, day 1..31). -/
def yearMonthDayOfDoe (doe : ℕ) : ℕ × ℕ × ℕ :=
  let c := (4 * doe + 3) / 146097
  let doc := doe - 36524 * c
  let yic := (4 * doc + 3) / 1461
  let doy := doc - 1461 * yic / 4
  let mp := (5 * doy + 2) / 153
  let d := doy - (153 * mp + 2) / 5 + 1
  let m := if mp < 10 then mp + 3 else mp - 9
  (100 * c + yic, m, d)

/-- Calendar date (year, month 1..12, day) of the day `z` days after
1970-01-01 in the proleptic Gregorian calendar. -/
def civilFromDays (z : ℤ) : ℤ × ℕ × ℕ :=
  let era := (z + 719468) / 146097
  let t := yearMonthDayOfDoe ((z + 719468) % 146097).toNat
  ((t.1 : ℤ) + era * 400 + (if (t.2.1 : ℤ) ≤ 2 then 1 else 0), t.2.1, t.2.2)

/-- Day index (days since 1970-01-01) of a calendar date; month is
1-indexed here and the day may be out of range (it is added linearly,
as in ECMAScript `MakeDay`). -/
def daysFromCivil (y m d : ℤ) : ℤ :=
  let y' := y - (if m ≤ 2 then 1 else 0)
  let era := y' / 400
  let yoe := y' - era * 400
  let doy := (153 * (m + (if m ≤ 2 then 9 else -3)) + 2) / 5 + d - 1
  era * 146097 + yoe * 365 + yoe / 4 - yoe / 100 + doy - 719468

theorem yearMonthDayOfDoe_spec (doe : ℕ) (h : doe < 146097) :
    (yearMonthDayOfDoe doe).1 ≤ 399 ∧
    1 ≤ (yearMonthDayOfDoe doe).2.1 ∧ (yearMonthDayOfDoe doe).2.1 ≤ 12 ∧
    1 ≤ (yearMonthDayOfDoe doe).2.2 ∧ (yearMonthDayOfDoe doe).2.2 ≤ 31 ∧
    365 * ((yearMonthDayOfDoe doe).1 : ℤ) + ((yearMonthDayOfDoe doe).1 : ℤ) / 4
      - ((yearMonthDayOfDoe doe).1 : ℤ) / 100
      + ((153 * (((yearMonthDayOfDoe doe).2.1 : ℤ)
            + (if ((yearMonthDayOfDoe doe).2.1 : ℤ) ≤ 2 then 9 else -3)) + 2) / 5
          + ((yearMonthDayOfDoe doe).2.2 : ℤ) - 1) = doe := by
  unfold yearMonthDayOfDoe
  dsimp only
  have hc : 4 * doe + 3 < 146097 * 4 := by omega
  have hc3 : (4 * doe + 3) / 146097 ≤ 3 := by omega
  have hdocle : 36524 * ((4 * doe + 3) / 146097) ≤ doe := by omega
  have hdoc : doe - 36524 * ((4 * doe + 3) / 146097) ≤ 36524 := by omega
  have hyic : (4 * (doe - 36524 * ((4 * doe + 3) / 146097)) + 3) / 1461 ≤ 99 := by omega
  have hu : 1461 * ((4 * (doe - 36524 * ((4 * doe + 3) / 146097)) + 3) / 1461) / 4 =
      365 * ((4 * (doe - 36524 * ((4 * doe + 3) / 146097)) + 3) / 1461) +
        ((4 * (doe - 36524 * ((4 * doe + 3) / 146097)) + 3) / 1461) / 4 := by omega
  have hule : 1461 * ((4 * (doe - 36524 * ((4 * doe + 3) / 146097)) + 3) / 1461) / 4 ≤
      doe - 36524 * ((4 * doe + 3) / 146097) := by omega
  have hdoy : doe - 36524 * ((4 * doe + 3) / 146097) -
      1461 * ((4 * (doe - 36524 * ((4 * doe + 3) / 146097)) + 3) / 1461) / 4 ≤ 365 := by
    omega
  have hq4 : (100 * ((4 * doe + 3) / 146097) +
        (4 * (doe - 36524 * ((4 * doe + 3) / 146097)) + 3) / 1461) / 4 =
      25 * ((4 * doe + 3) / 146097) +
        ((4 * (doe - 36524 * ((4 * doe + 3) / 146097)) + 3) / 1461) / 4 := by omega
  have hq100 : (100 * ((4 * doe + 3) / 146097) +
        (4 * (doe - 36524 * ((4 * doe + 3) / 146097)) + 3) / 1461) / 100 =
      (4 * doe + 3) / 146097 := by omega
  split_ifs <;> omega

theorem recomposeDays (era : ℤ) (yoe m d : ℕ) (z : ℤ)
    (h1 : yoe ≤ 399)
    (h6 : 365 * (yoe : ℤ) + (yoe : ℤ) / 4 - (yoe : ℤ) / 100
      + ((153 * ((m : ℤ) + (if (m : ℤ) ≤ 2 then 9 else -3)) + 2) / 5 + (d : ℤ) - 1)
      = z + 719468 - era * 146097) :
    daysFromCivil ((yoe : ℤ) + era * 400 + (if (m : ℤ) ≤ 2 then 1 else 0)) (m : ℤ) (d : ℤ)
      = z := by
  unfold daysFromCivil
  dsimp only
  have hera : ((yoe : ℤ) + era * 400) / 400 = era := by omega
  split_ifs at h6 ⊢ <;> omega

/-- The two calendar conversions are mutually inverse. -/
theorem daysFromCivil_civilFromDays (z : ℤ) :
    daysFromCivil (civilFromDays z).1 ((civilFromDays z).2.1 : ℤ)
      ((civilFromDays z).2.2 : ℤ) = z := by
  have hdoe : ((z + 719468) % 146097).toNat < 146097 := by omega
  obtain ⟨h1, h2, h3, h4, h5, h6⟩ :=
    yearMonthDayOfDoe_spec ((z + 719468) % 146097).toNat hdoe
  have h6' : 365 * ((yearMonthDayOfDoe ((z + 719468) % 146097).toNat).1 : ℤ)
      + ((yearMonthDayOfDoe ((z + 719468) % 146097).toNat).1 : ℤ) / 4
      - ((yearMonthDayOfDoe ((z + 719468) % 146097).toNat).1 : ℤ) / 100
      + ((153 * (((yearMonthDayOfDoe ((z + 719468) % 146097).toNat).2.1 : ℤ)
            + (if ((yearMonthDayOfDoe ((z + 719468) % 146097).toNat).2.1 : ℤ) ≤ 2
               then 9 else -3)) + 2) / 5
          + ((yearMonthDayOfDoe ((z + 719468) % 146097).toNat).2.2 : ℤ) - 1)
      = z + 719468 - (z + 719468) / 146097 * 146097 := by omega
  have hrec := recomposeDays ((z + 719468) / 146097)
    (yearMonthDayOfDoe ((z + 719468) % 146097).toNat).1
    (yearMonthDayOfDoe ((z + 719468) % 146097).toNat).2.1
    (yearMonthDayOfDoe ((z + 719468) % 146097).toNat).2.2 z h1 h6'
  unfold civilFromDays
  dsimp only
  exact hrec

theorem civilFromDays_epoch : civilFromDays 0 = (1970, 1, 1) := by decide

theorem civilFromDays_checks :
    civilFromDays (-25568) = (1899, 12, 31) ∧
    civilFromDays 19723 = (2024, 1, 1) ∧
    civilFromDays 11016 = (2000, 2, 29) ∧
    civilFromDays (-719162) = (1, 1, 1) ∧
    civilFromDays 19787 = (2024, 3, 5) := by decide

/-! ## The JS `Date` model -/

/-- The calendar/time components a `Date` exposes through its getters;
`month` is 0-indexed as in `getMonth`/`getUTCMonth`. -/
structure DateComps where
  year : ℤ
  month : ℕ
  day : ℕ
  hour : ℕ
  minute : ℕ
  second : ℕ
  deriving DecidableEq

/-- UTC components of a time value, per ECMAScript `YearFromTime`,
`MonthFromTime`, `DateFromTime`, `HourFromTime`, `MinFromTime`,
`SecFromTime` (all floor-based, so correct for negative times). -/
def msToComps (t : ℤ) : DateComps :=
  let days := t / 86400000
  let twd := (t % 86400000).toNat
  let c := civilFromDays days
  ⟨c.1, c.2.1 - 1, c.2.2, twd / 3600000, twd / 60000 % 60, twd / 1000 % 60⟩

/-- ECMAScript `TimeClip`: time values beyond ±8.64e15 ms denote an
Invalid Date (`none`). -/
def timeClip (t : ℤ) : Option ℤ :=
  if 8640000000000000 < t.natAbs then none else some t

/-- The 0..99 → 1900+y rule applied by the multi-argument `Date`
constructor. -/
def makeFullYear (y : ℤ) : ℤ := if 0 ≤ y ∧ y ≤ 99 then y + 1900 else y

/-- ECMAScript `MakeDay`: month argument `mo` is 0-indexed and may be any
integer (normalized into the year), the day is added linearly. -/
def makeDay (y mo d : ℤ) : ℤ :=
  daysFromCivil (y + mo / 12) (mo % 12 + 1) d

/-- Model of `new Date(y, mo, d, hh, mi, ss)` under host offset `o`
minutes: components are local wall-clock time; the stored value is the
clipped UTC time value. -/
def mkDateLocal (y mo d hh mi ss o : ℤ) : Option ℤ :=
  timeClip (makeDay (makeFullYear y) mo d * 86400000
    + hh * 3600000 + mi * 60000 + ss * 1000 - o * 60000)

/-- Local-time components of a time value under host offset `o` minutes
(the `getFullYear`/`getMonth`/... getters). -/
def localComps (ts o : ℤ) : DateComps := msToComps (ts + o * 60000)

/-! ## excelSerialToDate (core on parsed numbers)

`excelSerialToDate(serial)` computes `ms = (num - 25569) * 86400 * 1000`,
takes the UTC components of `new Date(ms)` and rebuilds a local `Date`
from them.  `serialNumToDate` is that computation after `parseFloat`
succeeded; the number is the scaled decimal `m / 10^e`, so
`ms * 10^e = (m - 25569·10^e) * 86400000` exactly. -/

/-- The numerator of `ms · 10^e` for serial `m / 10^e`:
`(num - 25569) * 86400 * 1000` scaled exactly. -/
def serialMsNum (m : ℤ) (e : ℕ) : ℤ := (m - 25569 * (10 : ℤ) ^ e) * 86400000

/-- The time value stored by `new Date(ms)`: `ms` truncated toward zero
(ECMAScript `ToIntegerOrInfinity`). -/
def serialMsTrunc (m : ℤ) (e : ℕ) : ℤ := (serialMsNum m e).tdiv ((10 : ℤ) ^ e)

/-- Core of `excelSerialToDate` on an already-parsed number: the `Date`
object it returns (`none` = Invalid Date). -/
def serialNumToDate (n : JNum) (o : ℤ) : Option ℤ :=
  match n with
  | JNum.inf _ => none
  | JNum.fin m e =>
    if 8640000000000000 * 10 ^ e < (serialMsNum m e).natAbs then none
    else
      let c := msToComps (serialMsTrunc m e)
      mkDateLocal c.year (c.month : ℤ) (c.day : ℤ) (c.hour : ℤ) (c.minute : ℤ)
        (c.second : ℤ) o

/-! ## parseDateTimeString (core on strings) -/

/-- Time components read from the optional second whitespace-separated
part; `none` models an `NaN` component (which invalidates the `Date`). -/
def readTimeParts (tparts : List Str) : Option (ℤ × ℤ × ℤ) :=
  match tparts with
  | [] => some (0, 0, 0)
  | tp :: _ =>
    match splitOnCh ':' tp with
    | s1 :: s2 :: restSegs =>
      match jsParseInt s1, jsParseInt s2 with
      | some hh, some mi =>
        match restSegs with
        | [] => some (hh, mi, 0)
        | s3 :: _ =>
          match jsParseInt s3 with
          | some ss => some (hh, mi, ss)
          | none => none
      | _, _ => none
    | _ => some (0, 0, 0)

/-- Model of `parseDateTimeString` on a string under host offset `o`:
`none` is a `null` return; `some none` is an Invalid `Date` object. -/
def parseDateTimeStr (s : Str) (o : ℤ) : Option (Option ℤ) :=
  let t := jsTrim s
  if t = [] then none
  else
    let parts := splitWs t
    match splitOnCh '/' (parts.headD []) with
    | [a, b, c] =>
      match jsParseInt a, jsParseInt b, jsParseInt c with
      | some d, some mo, some y =>
        match readTimeParts (parts.drop 1) with
        | some (hh, mi, ss) => some (mkDateLocal y (mo - 1) d hh mi ss o)
        | none => some none
      | _, _, _ => none
    | _ => none

/-! ## es-AR display formatting -/

/-- Two-digit zero padding. -/
def pad2 (n : ℕ) : Str := if n < 10 then '0' :: natChars n else natChars n

/-- Model of `toLocaleDateString('es-AR')` on the components of a valid
date: `d/m/yyyy` without zero padding. -/
def fmtDateEsAR (c : DateComps) : Str :=
  natChars c.day ++ '/' :: natChars (c.month + 1) ++ '/' :: intChars c.year

/-- Model of `toLocaleTimeString('es-AR', {hour12: false})`:
zero-padded `hh:mm:ss`. -/
def fmtTimeEsAR (c : DateComps) : Str :=
  pad2 c.hour ++ ':' :: pad2 c.minute ++ ':' :: pad2 c.second

/-- Display form of `dateObj.toLocaleDateString('es-AR')` under offset
`o`, including the Invalid Date case. -/
def dispDate (d : Option ℤ) (o : ℤ) : Str :=
  match d with
  | none => ("Invalid Date").data
  | some ts => fmtDateEsAR (localComps ts o)

/-- Display form of `dateObj.toLocaleTimeString('es-AR', {hour12:false})`
under offset `o`, including the Invalid Date case. -/
def dispTime (d : Option ℤ) (o : ℤ) : Str :=
  match d with
  | none => ("Invalid Date").data
  | some ts => fmtTimeEsAR (localComps ts o)

/-! ## JSON values -/

/-- A JSON value as produced by `resp.json()`.  `vNum m e` is the number
`m / 10^e` (canonical scaled decimal).  Object fields are in insertion
order, as JS preserves it; `JSON.parse` never produces duplicate keys. -/
inductive JSValue where
  | vNull : JSValue
  | vBool (b : Bool) : JSValue
  | vNum (m : ℤ) (e : ℕ) : JSValue
  | vStr (s : Str) : JSValue
  | vArr (elems : List JSValue) : JSValue
  | vObj (fields : List (Str × JSValue)) : JSValue

/-- JS truthiness of a value (`NaN` cannot occur in a JSON value). -/
def truthyV : JSValue → Bool
  | JSValue.vNull => false
  | JSValue.vBool b => b
  | JSValue.vNum m _ => m ≠ 0
  | JSValue.vStr s => s ≠ []
  | JSValue.vArr _ => true
  | JSValue.vObj _ => true

/-- JS truthiness where `none` is `undefined`. -/
def truthy : Option JSValue → Bool
  | none => false
  | some v => truthyV v

/-- First-match association lookup among object fields. -/
def lookupField : List (Str × JSValue) → Str → Option JSValue
  | [], _ => none
  | (k, v) :: rest, key => if k = key then some v else lookupField rest key

/-- Property access `v[key]`; `none` is `undefined`.  Non-object values
have none of the feed's keys. -/
def getField : JSValue → Str → Option JSValue
  | JSValue.vObj fs, key => lookupField fs key
  | _, _ => none

/-- Decimal printing of the scaled decimal `m / 10^e` (canonical input):
the digits of `m` with a decimal point `e` places from the right,
zero-padded on the left as needed.  This is JS `ToString` of a number,
minus the exponential notation used beyond 1e21 / under 1e-6. -/
def decChars (m : ℤ) (e : ℕ) : Str :=
  if e = 0 then intChars m
  else
    let ds := natChars m.natAbs
    let ds2 := List.replicate (e + 1 - ds.length) '0' ++ ds
    (if m < 0 then ['-'] else []) ++ (ds2.take (ds2.length - e) ++ '.' :: ds2.drop (ds2.length - e))

mutual
/-- JS `ToString` of a value (the fragment without `undefined`). -/
def toStrV : JSValue → Str
  | JSValue.vNull => ('n' :: ('u' :: ('l' :: ('l' :: []))))
  | JSValue.vBool b =>
    if b then ('t' :: ('r' :: ('u' :: ('e' :: []))))
    else ('f' :: ('a' :: ('l' :: ('s' :: ('e' :: [])))))
  | JSValue.vNum m e => decChars m e
  | JSValue.vStr s => s
  | JSValue.vArr xs => joinArr xs
  | JSValue.vObj _ =>
    ('[' :: ('o' :: ('b' :: ('j' :: ('e' :: ('c' :: ('t' :: (' ' :: ('O' :: ('b' :: ('j' :: ('e' :: ('c' :: ('t' :: (']' :: [])))))))))))))))

/-- `Array.prototype.join(',')` over `ToString`, with `null` elements
becoming empty. -/
def joinArr : List JSValue → Str
  | [] => []
  | [x] => arrElemStr x
  | x :: y :: rest => arrElemStr x ++ ',' :: joinArr (y :: rest)

/-- One array element as `join` renders it. -/
def arrElemStr : JSValue → Str
  | JSValue.vNull => []
  | JSValue.vBool b =>
    if b then ('t' :: ('r' :: ('u' :: ('e' :: []))))
    else ('f' :: ('a' :: ('l' :: ('s' :: ('e' :: [])))))
  | JSValue.vNum m e => decChars m e
  | JSValue.vStr s => s
  | JSValue.vArr xs => joinArr xs
  | JSValue.vObj _ =>
    ('[' :: ('o' :: ('b' :: ('j' :: ('e' :: ('c' :: ('t' :: (' ' :: ('O' :: ('b' :: ('j' :: ('e' :: ('c' :: ('t' :: (']' :: [])))))))))))))))
end

/-- Model of `parseFloat(x)` on an optional value (`none` argument is
`undefined`, which gives `NaN`).  JS stringifies the argument first; for
a number that round-trips to the number itself, which the `vNum` case
shortcuts. -/
def parseFloatV : Option JSValue → Option JNum
  | none => none
  | some (JSValue.vNum m e) => some (JNum.fin m e)
  | some v => jsParseFloat (toStrV v)

/-- Model of `parseDateTimeString` on an arbitrary value: `null` for
empty strings and non-strings (`if (!str || typeof str !== 'string')`). -/
def parseDateTimeV (v : Option JSValue) (o : ℤ) : Option (Option ℤ) :=
  match v with
  | some (JSValue.vStr s) => if s = [] then none else parseDateTimeStr s o
  | _ => none

/-! ## The feed normalizer `parseWellsFromData` -/

/-- One stage row of one well, as pushed onto `well.etapas`. -/
structure Etapa where
  etapa : Str
  fechaHora : Str
  profundidad : Option JNum
  fechaFractura : JSValue
  fechaFracturaDate : Option (Option ℤ)

/-- One well: display name (the raw header value or a synthesized
string) and its ordered stage list. -/
structure Well where
  name : JSValue
  etapas : List Etapa

/-- The normalizer's result object `{ wells: [...] }`. -/
structure ParseResult where
  wells : List Well

/-- Numbered key `base + i`. -/
def keyNum (base : String) (i : ℕ) : Str := base.data ++ natChars i

/-- The `SecuenciaPozo{i}` key. -/
def secKey (i : ℕ) : Str := keyNum ("SecuenciaPozo") i

/-- The `TPNPozo{i}` key. -/
def tpnKey (i : ℕ) : Str := keyNum ("TPNPozo") i

/-- The `FechaFracPozo{i}` key. -/
def fracKey (i : ℕ) : Str := keyNum ("FechaFracPozo") i

/-- Usability gate for a candidate well name: the negation of
`!name || name.toString().trim() === '' || name.toString().trim().toUpperCase() === 'X'`. -/
def nameUsable : Option JSValue → Bool
  | none => false
  | some v => truthyV v && jsTrim (toStrV v) ≠ [] && upStr (jsTrim (toStrV v)) ≠ ('X' :: [])

/-- Well name for slot `i`: alternate key `FechaFracPozo{i}` first, then
`TPNPozo{i}`, then the synthesized `Pozo {i}`. -/
def wellName (header : JSValue) (i : ℕ) : JSValue :=
  if nameUsable (getField header (fracKey i)) then
    (getField header (fracKey i)).getD JSValue.vNull
  else if nameUsable (getField header (tpnKey i)) then
    (getField header (tpnKey i)).getD JSValue.vNull
  else JSValue.vStr (("Pozo ").data ++ natChars i)

/-- The six initial wells (slots 1..6) with empty stage lists, as pushed
by the `for (let i = 1; i <= 6; i++)` loop. -/
def initWells (header : JSValue) : List Well :=
  [⟨wellName header 1, []⟩, ⟨wellName header 2, []⟩, ⟨wellName header 3, []⟩,
   ⟨wellName header 4, []⟩, ⟨wellName header 5, []⟩, ⟨wellName header 6, []⟩]

/-- The `fechaHora` display string for the sequence value of slot `i`.
Numeric parse first (Excel serial via the `excelSerialToDate`
computation; the returned `Date` object is always truthy there), then
the string-date fallback, else the raw string or `''`. -/
def fechaHoraOf (o : ℤ) (secVal : Option JSValue) : Str :=
  if truthy secVal then
    match parseFloatV secVal with
    | some n =>
      dispDate (serialNumToDate n o) o ++ (',' :: (' ' :: [])) ++ dispTime (serialNumToDate n o) o
    | none =>
      match secVal with
      | some (JSValue.vStr s) =>
        if jsTrim s ≠ [] then
          match parseDateTimeStr s o with
          | some dt => dispDate dt o ++ (',' :: (' ' :: [])) ++ dispTime dt o
          | none => s
        else []
      | _ => []
  else []

/-- The `profundidad` field: `parseFloat(tpnVal)` if `tpnVal` is truthy
and the parse is not `NaN`, else `null`. -/
def profundidadOf (tpnVal : Option JSValue) : Option JNum :=
  if truthy tpnVal then parseFloatV tpnVal else none

/-- The fracture pair `(fechaFractura, fechaFracturaDate)` for slot `i`:
numeric parse first (serial date; the `Date` object is always truthy
there), then the text-date fallback, else the raw value with no
canonical date. -/
def fracturaOf (o : ℤ) (fracVal : Option JSValue) : JSValue × Option (Option ℤ) :=
  if truthy fracVal then
    match parseFloatV fracVal with
    | some n =>
      (JSValue.vStr (dispDate (serialNumToDate n o) o), some (serialNumToDate n o))
    | none =>
      match parseDateTimeV fracVal o with
      | some dt => (JSValue.vStr (dispDate dt o), some dt)
      | none => ((fracVal.getD JSValue.vNull), none)
  else (JSValue.vStr [], none)

/-- The stage record built from row `row` for well slot `i` with label
`lbl` (the body of the inner `for` loop). -/
def mkStage (o : ℤ) (row : JSValue) (i : ℕ) (lbl : Str) : Etapa :=
  { etapa := lbl
    fechaHora := fechaHoraOf o (getField row (secKey i))
    profundidad := profundidadOf (getField row (tpnKey i))
    fechaFractura := (fracturaOf o (getField row (fracKey i))).1
    fechaFracturaDate := (fracturaOf o (getField row (fracKey i))).2 }

/-- Appends this row's stage to every well; `i` is the slot of the first
well in the list. -/
def appendStages (o : ℤ) (row : JSValue) (lbl : Str) : ℕ → List Well → List Well
  | _, [] => []
  | i, w :: ws =>
    { w with etapas := w.etapas ++ [mkStage o row i lbl] } :: appendStages o row lbl (i + 1) ws

/-- The `Fila` key. -/
def filaKey : Str := ("Fila").data

/-- The row label `(row.Fila || '').trim()`: errors when `row.Fila` is
truthy but not a string (`.trim` is then a `TypeError`). -/
def rowLabel (row : JSValue) : Except Unit Str :=
  match getField row filaKey with
  | some v =>
    if truthyV v then
      match v with
      | JSValue.vStr s => Except.ok (jsTrim s)
      | _ => Except.error ()
    else Except.ok []
  | none => Except.ok []

/-- Processes one data row (`j ≥ 2`): falsy rows and rows with an empty
trimmed label are skipped; otherwise one stage is appended to each well. -/
def processRow (o : ℤ) (wells : List Well) (row : JSValue) : Except Unit (List Well) :=
  if truthyV row then
    match rowLabel row with
    | Except.error e => Except.error e
    | Except.ok lbl =>
      if lbl = [] then Except.ok wells
      else Except.ok (appendStages o row lbl 1 wells)
  else Except.ok wells

/-- Left fold of `processRow` over the data rows. -/
def foldRows (o : ℤ) : List Well → List JSValue → Except Unit (List Well)
  | ws, [] => Except.ok ws
  | ws, row :: rest =>
    match processRow o ws row with
    | Except.error e => Except.error e
    | Except.ok ws2 => foldRows o ws2 rest

/-- The `items` key. -/
def itemsKey : Str := ("items").data

/-- The guard `data && Array.isArray(data.items)`: the items array when
`data` is truthy and `data.items` an array, else `none`. -/
def itemsOf (data : Option JSValue) : Option (List JSValue) :=
  match data with
  | none => none
  | some d =>
    if truthyV d then
      match getField d itemsKey with
      | some (JSValue.vArr items) => some items
      | _ => none
    else none

/-- The header record `data.items[0] || {}` of an items list. -/
def headerRowOf (items : List JSValue) : JSValue :=
  if truthyV (items.headD JSValue.vNull) then items.headD JSValue.vNull
  else JSValue.vObj []

/-- Model of `parseWellsFromData(data)` under host offset `o`.  The
argument `none` is a missing (`undefined`) argument.  `Except.error ()`
models an uncaught `TypeError`. -/
def parseWellsFromData (data : Option JSValue) (o : ℤ) : Except Unit ParseResult :=
  match itemsOf data with
  | none => Except.ok ⟨[]⟩
  | some items =>
    if items.isEmpty then Except.ok ⟨[]⟩
    else
      match foldRows o (initWells (headerRowOf items)) (items.drop 2) with
      | Except.error e => Except.error e
      | Except.ok ws => Except.ok ⟨ws⟩

/-! ## Wrappers used by the claims -/

/-- Model of `excelSerialToDate(v)`: `none` is a `null` return (`NaN`
parse); `some none` is an Invalid `Date` object. -/
def excelSerialToDate (v : JSValue) (o : ℤ) : Option (Option ℤ) :=
  match parseFloatV (some v) with
  | none => none
  | some n => some (serialNumToDate n o)

/-- The calendar tuple a consumer observes from `excelSerialToDate`
under offset `o`: the local-time components of the returned `Date`. -/
def decodeTuple (v : JSValue) (o : ℤ) : Option (Option DateComps) :=
  (excelSerialToDate v o).map (fun d => d.map (fun ts => localComps ts o))

/-! ## Structure of a successful normalization

`foldRows_spec` relates the output wells to the input rows: names are
untouched and each well's stage list is the in-order image of the
contributing rows. -/

/-- The stage that a data row contributes to well slot `i`: `none` when
the row is falsy or its trimmed label is empty (or would throw). -/
def stageFor (o : ℤ) (row : JSValue) (i : ℕ) : Option Etapa :=
  if truthyV row then
    match rowLabel row with
    | Except.ok lbl => if lbl = [] then none else some (mkStage o row i lbl)
    | Except.error _ => none
  else none

/-- The label contribution of a data row: `some` of the non-empty
trimmed label for rows that produce stages, `none` otherwise. -/
def rowContribution (row : JSValue) : Option Str :=
  if truthyV row then
    match rowLabel row with
    | Except.ok lbl => if lbl = [] then none else some lbl
    | Except.error _ => none
  else none

theorem appendStages_length (o : ℤ) (row : JSValue) (lbl : Str) :
    ∀ (ws : List Well) (i : ℕ), (appendStages o row lbl i ws).length = ws.length := by
  intro ws
  induction ws with
  | nil => intro i; rfl
  | cons w rest ih => intro i; simp [appendStages, ih]

theorem appendStages_get (o : ℤ) (row : JSValue) (lbl : Str) :
    ∀ (ws : List Well) (i k : ℕ) (h : k < (appendStages o row lbl i ws).length)
      (h2 : k < ws.length),
      (appendStages o row lbl i ws).get ⟨k, h⟩ =
        ⟨(ws.get ⟨k, h2⟩).name,
         (ws.get ⟨k, h2⟩).etapas ++ [mkStage o row (i + k) lbl]⟩ := by
  intro ws
  induction ws with
  | nil => intro i k h h2; exact absurd h2 (by simp)
  | cons w rest ih =>
    intro i k h h2
    cases k with
    | zero => rfl
    | succ k' =>
      have h3 : k' < rest.length := by simpa using h2
      have h4 : k' < (appendStages o row lbl (i + 1) rest).length := by
        rw [appendStages_length]; exact h3
      have := ih (i + 1) k' h4 h3
      simp only [appendStages, List.get_cons_succ]
      rw [this]
      have harith : i + 1 + k' = i + (k' + 1) := by omega
      rw [harith]

theorem processRow_ok (o : ℤ) (ws ws2 : List Well) (row : JSValue)
    (h : processRow o ws row = Except.ok ws2) :
    (stageFor o row 0 = none ∧ ws2 = ws) ∨
    (∃ lbl, truthyV row = true ∧ rowLabel row = Except.ok lbl ∧ lbl ≠ [] ∧
      ws2 = appendStages o row lbl 1 ws) := by
  unfold processRow at h
  by_cases htr : truthyV row = true
  · rw [if_pos htr] at h
    cases hlbl : rowLabel row with
    | error e => rw [hlbl] at h; dsimp only at h; exact absurd h (by simp)
    | ok lbl =>
      rw [hlbl] at h
      dsimp only at h
      by_cases hl : lbl = []
      · left
        constructor
        · unfold stageFor
          rw [if_pos htr, hlbl]
          dsimp only
          rw [if_pos hl]
        · rw [if_pos hl] at h; exact (Except.ok.inj h).symm
      · right
        rw [if_neg hl] at h
        exact ⟨lbl, htr, by rfl, hl, (Except.ok.inj h).symm⟩
  · rw [if_neg htr] at h
    left
    constructor
    · unfold stageFor
      rw [if_neg htr]
    · exact (Except.ok.inj h).symm

theorem stageFor_shift (o : ℤ) (row : JSValue) (lbl : Str) (i : ℕ)
    (htr : truthyV row = true) (hlbl : rowLabel row = Except.ok lbl) (hne : lbl ≠ []) :
    stageFor o row i = some (mkStage o row i lbl) := by
  unfold stageFor
  rw [if_pos htr, hlbl]
  dsimp only
  rw [if_neg hne]

theorem stageFor_none_any (o : ℤ) (row : JSValue) (i : ℕ)
    (h : stageFor o row 0 = none) : stageFor o row i = none := by
  unfold stageFor at h ⊢
  by_cases htr : truthyV row = true
  · rw [if_pos htr] at h ⊢
    cases hlbl : rowLabel row with
    | error e => rfl
    | ok lbl =>
      rw [hlbl] at h
      dsimp only at h ⊢
      by_cases hl : lbl = []
      · rw [if_pos hl]
      · rw [if_neg hl] at h; exact absurd h (by simp)
  · rw [if_neg htr] at h ⊢

theorem foldRows_spec (o : ℤ) :
    ∀ (rows : List JSValue) (ws ws2 : List Well),
      foldRows o ws rows = Except.ok ws2 →
      ws2.length = ws.length ∧
      ∀ k (h2 : k < ws2.length) (h : k < ws.length),
        (ws2.get ⟨k, h2⟩).name = (ws.get ⟨k, h⟩).name ∧
        (ws2.get ⟨k, h2⟩).etapas = (ws.get ⟨k, h⟩).etapas ++
          rows.filterMap (fun row => stageFor o row (k + 1)) := by
  intro rows
  induction rows with
  | nil =>
    intro ws ws2 h
    have h0 : (Except.ok ws : Except Unit (List Well)) = Except.ok ws2 := by
      simpa [foldRows] using h
    have hw : ws = ws2 := Except.ok.inj h0
    subst hw
    exact ⟨rfl, fun k h2 h => ⟨rfl, by simp⟩⟩
  | cons row rest ih =>
    intro ws ws2 h
    unfold foldRows at h
    cases hpr : processRow o ws row with
    | error e => rw [hpr] at h; exact absurd h (by simp)
    | ok ws1 =>
      rw [hpr] at h
      obtain ⟨hlen, hspec⟩ := ih ws1 ws2 h
      rcases processRow_ok o ws ws1 row hpr with ⟨hnone, hid⟩ | ⟨lbl, htr, hlbl, hne, happ⟩
      · subst hid
        refine ⟨hlen, fun k h2 hk => ?_⟩
        obtain ⟨hn, he⟩ := hspec k h2 hk
        refine ⟨hn, ?_⟩
        rw [he, List.filterMap_cons, stageFor_none_any o row (k + 1) hnone]
      · subst happ
        refine ⟨by rw [hlen, appendStages_length], fun k h2 hk => ?_⟩
        have hk1 : k < (appendStages o row lbl 1 ws).length := by
          rw [appendStages_length]; exact hk
        obtain ⟨hn, he⟩ := hspec k h2 hk1
        have hget := appendStages_get o row lbl ws 1 k hk1 hk
        refine ⟨by rw [hn, hget], ?_⟩
        rw [he, hget, List.filterMap_cons, stageFor_shift o row lbl (k + 1) htr hlbl hne]
        simp only []
        rw [List.append_assoc]
        have harith : 1 + k = k + 1 := by omega
        rw [harith]
        simp

/-- Whether `data.items` is a non-empty array (the complement of the
early-return guard of `parseWellsFromData`). -/
def hasItemsArr (data : Option JSValue) : Bool :=
  match itemsOf data with
  | some items => !items.isEmpty
  | none => false

/-- The `items` array of the payload (empty when missing or not an
array). -/
def itemsArr (data : Option JSValue) : List JSValue :=
  match itemsOf data with
  | some items => items
  | none => []

/-- The header record: `data.items[0] || {}`. -/
def headerOf (data : Option JSValue) : JSValue := headerRowOf (itemsArr data)

theorem initWells_get (hdr : JSValue) (k : ℕ) (hk : k < (initWells hdr).length) :
    (initWells hdr).get ⟨k, hk⟩ = ⟨wellName hdr (k + 1), []⟩ := by
  have h6 : k < 6 := by simpa [initWells] using hk
  interval_cases k <;> rfl

theorem parse_empty (data : Option JSValue) (o : ℤ) (h : hasItemsArr data = false) :
    parseWellsFromData data o = Except.ok ⟨[]⟩ := by
  unfold parseWellsFromData
  unfold hasItemsArr at h
  generalize hio : itemsOf data = g at h ⊢
  cases g with
  | none => rfl
  | some items =>
    dsimp only at h ⊢
    have hemp : items.isEmpty = true := by
      cases hi : items.isEmpty
      · rw [hi] at h; simp at h
      · rfl
    rw [if_pos hemp]

theorem parse_master (data : Option JSValue) (o : ℤ) (r : ParseResult)
    (h : parseWellsFromData data o = Except.ok r) (hne : hasItemsArr data = true) :
    r.wells.length = 6 ∧
    ∀ k (hk : k < r.wells.length),
      (r.wells.get ⟨k, hk⟩).name = wellName (headerOf data) (k + 1) ∧
      (r.wells.get ⟨k, hk⟩).etapas =
        ((itemsArr data).drop 2).filterMap (fun row => stageFor o row (k + 1)) := by
  unfold parseWellsFromData at h
  unfold hasItemsArr at hne
  generalize hio : itemsOf data = g at h hne
  cases g with
  | none => simp at hne
  | some items =>
    dsimp only at h hne
    have hemp : items.isEmpty = false := by
      cases hi : items.isEmpty
      · rfl
      · rw [hi] at hne; simp at hne
    rw [if_neg (by simp [hemp])] at h
    have hitems : itemsArr data = items := by
      unfold itemsArr
      rw [hio]
    have hheader : headerOf data = headerRowOf items := by
      unfold headerOf
      rw [hitems]
    cases hfold : foldRows o (initWells (headerRowOf items)) (items.drop 2) with
    | error e => rw [hfold] at h; exact absurd h (by simp)
    | ok ws =>
      rw [hfold] at h
      have hr : r = ⟨ws⟩ := (Except.ok.inj h).symm
      subst hr
      obtain ⟨hlen, hspec⟩ := foldRows_spec o (items.drop 2) _ ws hfold
      have hlen6 : ws.length = 6 := by
        rw [hlen]; rfl
      refine ⟨hlen6, fun k hk => ?_⟩
      have hk6 : k < 6 := by
        have hkw : k < ws.length := hk
        omega
      have hkinit : k < (initWells (headerRowOf items)).length := by
        simpa [initWells] using hk6
      obtain ⟨hn, he⟩ := hspec k hk hkinit
      rw [initWells_get] at hn he
      constructor
      · rw [hn, hheader]
      · rw [he, hitems]
        simp

theorem stageFor_label (o : ℤ) (i : ℕ) (row : JSValue) :
    (stageFor o row i).map (fun st => st.etapa) = rowContribution row := by
  unfold stageFor rowContribution
  by_cases htr : truthyV row = true
  · rw [if_pos htr, if_pos htr]
    cases rowLabel row with
    | error e => rfl
    | ok lbl =>
      dsimp only
      by_cases hl : lbl = []
      · rw [if_pos hl, if_pos hl]; rfl
      · rw [if_neg hl, if_neg hl]; rfl
  · rw [if_neg htr, if_neg htr]; rfl

theorem stages_labels (o : ℤ) (i : ℕ) (rows : List JSValue) :
    ((rows.filterMap (fun row => stageFor o row i)).map (fun st => st.etapa)) =
      rows.filterMap rowContribution := by
  induction rows with
  | nil => rfl
  | cons row rest ih =>
    rw [List.filterMap_cons, List.filterMap_cons, ← stageFor_label o i row]
    cases stageFor o row i with
    | none => simpa using ih
    | some st => simpa using ih

theorem stageFor_depth (o : ℤ) (i : ℕ) (row : JSValue) :
    (stageFor o row i).map (fun st => st.profundidad) =
      (rowContribution row).map (fun _ =>
        if truthy (getField row (tpnKey i)) then parseFloatV (getField row (tpnKey i))
        else none) := by
  unfold stageFor rowContribution
  by_cases htr : truthyV row = true
  · rw [if_pos htr, if_pos htr]
    cases rowLabel row with
    | error e => rfl
    | ok lbl =>
      dsimp only
      by_cases hl : lbl = []
      · rw [if_pos hl, if_pos hl]; rfl
      · rw [if_neg hl, if_neg hl]
        show some (mkStage o row i lbl).profundidad = some _
        unfold mkStage profundidadOf
        rfl
  · rw [if_neg htr, if_neg htr]; rfl

theorem stages_depths (o : ℤ) (i : ℕ) (rows : List JSValue) :
    ((rows.filterMap (fun row => stageFor o row i)).map (fun st => st.profundidad)) =
      rows.filterMap (fun row => (rowContribution row).map (fun _ =>
        if truthy (getField row (tpnKey i)) then parseFloatV (getField row (tpnKey i))
        else none)) := by
  induction rows with
  | nil => rfl
  | cons row rest ih =>
    rw [List.filterMap_cons, List.filterMap_cons, ← stageFor_depth o i row]
    cases stageFor o row i with
    | none => simpa using ih
    | some st => simpa using ih

/-! ## The shared concrete payload (the spec §8 scenario)

Header `{FechaFracPozo1: "Well-A"}`, one data row
`{Fila: "1", SecuenciaPozo1: "45292", TPNPozo1: "2500.5",
FechaFracPozo1: "45300"}`, evaluated at offset 0. -/

def scenarioPayload : JSValue :=
  JSValue.vObj [(itemsKey,
    JSValue.vArr
      [JSValue.vObj [(fracKey 1, JSValue.vStr (("Well-A").data))],
       JSValue.vNull,
       JSValue.vObj [(filaKey, JSValue.vStr ('1' :: [])),
                     (secKey 1, JSValue.vStr (("45292").data)),
                     (tpnKey 1, JSValue.vStr (("2500.5").data)),
                     (fracKey 1, JSValue.vStr (("45300").data))]])]

/-- The stage the scenario row produces for well 1: serial 45292 is
2024-01-01, serial 45300 is 2024-01-09, depth 2500.5. -/
def scenarioStage1 : Etapa :=
  ⟨('1' :: []), ("1/1/2024, 00:00:00").data, some (JNum.fin 25005 1),
   JSValue.vStr (("9/1/2024").data), some (some 1704758400000)⟩

/-- The stage the scenario row produces for wells 2..6 (no data). -/
def scenarioStageEmpty : Etapa := ⟨('1' :: []), [], none, JSValue.vStr [], none⟩

def scenarioResult : ParseResult :=
  ⟨[⟨JSValue.vStr (("Well-A").data), [scenarioStage1]⟩,
    ⟨JSValue.vStr (("Pozo 2").data), [scenarioStageEmpty]⟩,
    ⟨JSValue.vStr (("Pozo 3").data), [scenarioStageEmpty]⟩,
    ⟨JSValue.vStr (("Pozo 4").data), [scenarioStageEmpty]⟩,
    ⟨JSValue.vStr (("Pozo 5").data), [scenarioStageEmpty]⟩,
    ⟨JSValue.vStr (("Pozo 6").data), [scenarioStageEmpty]⟩]⟩

theorem scenario_parse :
    parseWellsFromData (some scenarioPayload) 0 = Except.ok scenarioResult := by
  rfl

/-! ## Claims C2, C3, C8, C10 -/

/-- C2 counterexample: on a payload whose `items` field is missing, the
code returns an empty wells list, not the 6 wells the claim demands for
every payload. -/
theorem c2_counterexample :
    parseWellsFromData (some (JSValue.vObj [])) 0 = Except.ok ⟨[]⟩ ∧
    (([] : List Well).length = 6 → False) :=
  ⟨rfl, by simp⟩

/-- C2 (amended): when `items` is a non-empty array, every successful
run returns exactly 6 wells in slot order (wells with empty stage lists
included); when `items` is missing, empty or not an array, the wells
list is empty. -/
theorem c2_wells_slots :
    (∀ (data : Option JSValue) (o : ℤ) (r : ParseResult),
        parseWellsFromData data o = Except.ok r → hasItemsArr data = true →
        r.wells.length = 6) ∧
    (∀ (data : Option JSValue) (o : ℤ), hasItemsArr data = false →
        parseWellsFromData data o = Except.ok ⟨[]⟩) :=
  ⟨fun data o r h hne => (parse_master data o r h hne).1,
   fun data o h => parse_empty data o h⟩

/-- C2 witness: both branches instantiated, on the §8 scenario payload
and on a `null` payload. -/
theorem c2_witness :
    scenarioResult.wells.length = 6 ∧
    parseWellsFromData (some JSValue.vNull) 0 = Except.ok ⟨[]⟩ :=
  ⟨c2_wells_slots.1 (some scenarioPayload) 0 scenarioResult scenario_parse rfl,
   c2_wells_slots.2 (some JSValue.vNull) 0 rfl⟩

/-- C3: in every successful run, each of the wells receives exactly one
stage per data row (index ≥ 2) whose trimmed `Fila` label is non-empty,
carrying that label, and no stage for rows whose trimmed label is empty
or whose `Fila` is falsy — regardless of the per-well values. -/
theorem c3_label_gate :
    ∀ (data : Option JSValue) (o : ℤ) (r : ParseResult),
      parseWellsFromData data o = Except.ok r →
      ∀ k (hk : k < r.wells.length),
        ((r.wells.get ⟨k, hk⟩).etapas.map (fun st => st.etapa)) =
          ((itemsArr data).drop 2).filterMap rowContribution := by
  intro data o r h k hk
  by_cases hne : hasItemsArr data = true
  · obtain ⟨hlen, hspec⟩ := parse_master data o r h hne
    obtain ⟨hn, he⟩ := hspec k hk
    rw [he, stages_labels]
  · rw [parse_empty data o (by simpa using hne)] at h
    have hr : r = ⟨[]⟩ := (Except.ok.inj h).symm
    subst hr
    exact absurd hk (by simp)

/-- C3 witness: the scenario's well 1 has exactly the one labeled stage
of the single labeled row. -/
theorem c3_witness :
    ((scenarioResult.wells.get ⟨0, by decide⟩).etapas.map (fun st => st.etapa)) =
      ((itemsArr (some scenarioPayload)).drop 2).filterMap rowContribution :=
  c3_label_gate (some scenarioPayload) 0 scenarioResult scenario_parse 0 (by decide)

/-- C8 failing input: `{items: [{}, null, {Fila: 5}]}`.  The code reads
`(row.Fila || '').trim()`; with the numeric label 5 that calls
`(5).trim`, which is a `TypeError`, contradicting the never-raises
claim. -/
theorem c8_throws :
    parseWellsFromData
      (some (JSValue.vObj [(itemsKey,
        JSValue.vArr [JSValue.vObj [], JSValue.vNull,
          JSValue.vObj [(filaKey, JSValue.vNum 5 0)]])])) 0 = Except.error () := rfl

/-- C10 counterexample: with raw depth value `0` (a number), the gate
`if (tpnVal && ...)` is falsy, so the depth is absent even though
`parseFloat(0)` is the finite number 0 — the claim demands depth 0. -/
theorem c10_counterexample :
    (parseWellsFromData
        (some (JSValue.vObj [(itemsKey,
          JSValue.vArr [JSValue.vNull, JSValue.vNull,
            JSValue.vObj [(filaKey, JSValue.vStr ('1' :: [])),
                          (tpnKey 1, JSValue.vNum 0 0)]])])) 0).map
        (fun r => r.wells.map (fun w => w.etapas.map (fun st => st.profundidad))) =
      Except.ok [[none], [none], [none], [none], [none], [none]] ∧
    parseFloatV (some (JSValue.vNum 0 0)) = some (JNum.fin 0 0) ∧
    (none : Option JNum) ≠ some (JNum.fin 0 0) :=
  ⟨rfl, rfl, by decide⟩

/-- C10 (amended): in every successful run, each stage's depth is
`parseFloat(tpnVal)` when `tpnVal` is truthy and the parse is not `NaN`,
and absent otherwise — in particular absent (never zero) when the raw
value is missing or unparseable, but also absent for the falsy number 0. -/
theorem c10_depth_gate :
    ∀ (data : Option JSValue) (o : ℤ) (r : ParseResult),
      parseWellsFromData data o = Except.ok r →
      ∀ k (hk : k < r.wells.length),
        ((r.wells.get ⟨k, hk⟩).etapas.map (fun st => st.profundidad)) =
          ((itemsArr data).drop 2).filterMap (fun row =>
            (rowContribution row).map (fun _ =>
              if truthy (getField row (tpnKey (k + 1))) then
                parseFloatV (getField row (tpnKey (k + 1)))
              else none)) := by
  intro data o r h k hk
  by_cases hne : hasItemsArr data = true
  · obtain ⟨hlen, hspec⟩ := parse_master data o r h hne
    obtain ⟨hn, he⟩ := hspec k hk
    rw [he, stages_depths]
  · rw [parse_empty data o (by simpa using hne)] at h
    have hr : r = ⟨[]⟩ := (Except.ok.inj h).symm
    subst hr
    exact absurd hk (by simp)

/-- C10 witness: the scenario's well 1 depth is 2500.5 from the truthy
string "2500.5". -/
theorem c10_witness :
    ((scenarioResult.wells.get ⟨0, by decide⟩).etapas.map (fun st => st.profundidad)) =
      ((itemsArr (some scenarioPayload)).drop 2).filterMap (fun row =>
        (rowContribution row).map (fun _ =>
          if truthy (getField row (tpnKey 1)) then parseFloatV (getField row (tpnKey 1))
          else none)) :=
  c10_depth_gate (some scenarioPayload) 0 scenarioResult scenario_parse 0 (by decide)

/-! ## Claim C4 -/

/-- C4 counterexample: with header `{FechaFracPozo1: 0}` the raw value's
string form trims to "0" (non-empty, not "X"), so the claim requires the
name to be that value, but the falsy-gate `!name` makes the code fall
through to the synthesized `Pozo 1`. -/
theorem c4_counterexample :
    (parseWellsFromData
        (some (JSValue.vObj [(itemsKey,
          JSValue.vArr [JSValue.vObj [(fracKey 1, JSValue.vNum 0 0)]])])) 0).map
        (fun r => r.wells.map (fun w => toStrV w.name)) =
      Except.ok [("Pozo 1").data, ("Pozo 2").data, ("Pozo 3").data,
        ("Pozo 4").data, ("Pozo 5").data, ("Pozo 6").data] ∧
    getField (headerOf (some (JSValue.vObj [(itemsKey,
        JSValue.vArr [JSValue.vObj [(fracKey 1, JSValue.vNum 0 0)]])])))
        (fracKey 1) = some (JSValue.vNum 0 0) ∧
    jsTrim (toStrV (JSValue.vNum 0 0)) ≠ [] ∧
    upStr (jsTrim (toStrV (JSValue.vNum 0 0))) ≠ ('X' :: []) ∧
    (("Pozo 1").data : Str) ≠ toStrV (JSValue.vNum 0 0) :=
  ⟨rfl, rfl, by decide, by decide, by decide⟩

/-- C4 (amended): the well name of slot `i` is the header's
`FechaFracPozo{i}` value when that value is truthy and its string form,
trimmed, is non-empty and not "X" case-insensitively; otherwise the
`TPNPozo{i}` value under the same rule (with falsy values also
unusable); otherwise the synthesized `Pozo {i}` — in particular when
neither key is present. -/
theorem c4_name_selection :
    ∀ (data : Option JSValue) (o : ℤ) (r : ParseResult),
      parseWellsFromData data o = Except.ok r →
      ∀ k (hk : k < r.wells.length),
        (∀ v, getField (headerOf data) (fracKey (k + 1)) = some v →
          truthyV v = true → jsTrim (toStrV v) ≠ [] →
          upStr (jsTrim (toStrV v)) ≠ ('X' :: []) →
          (r.wells.get ⟨k, hk⟩).name = v) ∧
        (nameUsable (getField (headerOf data) (fracKey (k + 1))) = false →
          ∀ v, getField (headerOf data) (tpnKey (k + 1)) = some v →
          truthyV v = true → jsTrim (toStrV v) ≠ [] →
          upStr (jsTrim (toStrV v)) ≠ ('X' :: []) →
          (r.wells.get ⟨k, hk⟩).name = v) ∧
        (nameUsable (getField (headerOf data) (fracKey (k + 1))) = false →
          nameUsable (getField (headerOf data) (tpnKey (k + 1))) = false →
          (r.wells.get ⟨k, hk⟩).name =
            JSValue.vStr (("Pozo ").data ++ natChars (k + 1))) := by
  intro data o r h k hk
  by_cases hne : hasItemsArr data = true
  · obtain ⟨hlen, hspec⟩ := parse_master data o r h hne
    obtain ⟨hn, he⟩ := hspec k hk
    refine ⟨?_, ?_, ?_⟩
    · intro v hv ht htrim hx
      have hus : nameUsable (getField (headerOf data) (fracKey (k + 1))) = true := by
        rw [hv]
        unfold nameUsable
        simp [ht, htrim, hx]
      rw [hn]
      unfold wellName
      rw [if_pos hus, hv]
      rfl
    · intro hfr v hv ht htrim hx
      have hus : nameUsable (getField (headerOf data) (tpnKey (k + 1))) = true := by
        rw [hv]
        unfold nameUsable
        simp [ht, htrim, hx]
      rw [hn]
      unfold wellName
      rw [if_neg (by simp [hfr]), if_pos hus, hv]
      rfl
    · intro hfr htpn
      rw [hn]
      unfold wellName
      rw [if_neg (by simp [hfr]), if_neg (by simp [htpn])]
  · rw [parse_empty data o (by simpa using hne)] at h
    have hr : r = ⟨[]⟩ := (Except.ok.inj h).symm
    subst hr
    exact absurd hk (by simp)

/-- C4 witness: the scenario's header gives well 1 the alternate-key
name "Well-A". -/
theorem c4_witness :
    (scenarioResult.wells.get ⟨0, by decide⟩).name = JSValue.vStr (("Well-A").data) :=
  (c4_name_selection (some scenarioPayload) 0 scenarioResult scenario_parse 0
      (by decide)).1 (JSValue.vStr (("Well-A").data)) rfl rfl (by decide) (by decide)

/-! ## Claims C6 and C9 -/

/-- C6: for a truthy raw value, numeric parsing takes precedence: when
`parseFloat` yields a finite number, both the sequence display and the
fracture pair are computed from `excelSerialToDate` of that value (no
text parsing involved); text-date parsing enters only when `parseFloat`
is `NaN`. -/
theorem c6_numeric_precedence :
    (∀ (o : ℤ) (w : JSValue) (m : ℤ) (e : ℕ), truthyV w = true →
      parseFloatV (some w) = some (JNum.fin m e) →
      ∃ d, excelSerialToDate w o = some d ∧
        fechaHoraOf o (some w) = dispDate d o ++ (',' :: (' ' :: [])) ++ dispTime d o ∧
        fracturaOf o (some w) = (JSValue.vStr (dispDate d o), some d)) ∧
    (∀ (o : ℤ) (w : JSValue), truthyV w = true → parseFloatV (some w) = none →
      (∀ s, w = JSValue.vStr s → jsTrim s ≠ [] →
        fechaHoraOf o (some w) =
          (match parseDateTimeStr s o with
           | some dt => dispDate dt o ++ (',' :: (' ' :: [])) ++ dispTime dt o
           | none => s)) ∧
      fracturaOf o (some w) =
        (match parseDateTimeV (some w) o with
         | some dt => (JSValue.vStr (dispDate dt o), some dt)
         | none => (w, none))) := by
  constructor
  · intro o w m e htr hpf
    refine ⟨serialNumToDate (JNum.fin m e) o, ?_, ?_, ?_⟩
    · unfold excelSerialToDate
      rw [hpf]
    · unfold fechaHoraOf
      rw [if_pos (by simpa [truthy] using htr), hpf]
    · unfold fracturaOf
      rw [if_pos (by simpa [truthy] using htr), hpf]
  · intro o w htr hpf
    constructor
    · intro s hw htrim
      subst hw
      unfold fechaHoraOf
      rw [if_pos (by simpa [truthy] using htr), hpf]
      dsimp only
      rw [if_pos htrim]
    · unfold fracturaOf
      rw [if_pos (by simpa [truthy] using htr), hpf]
      dsimp only
      cases parseDateTimeV (some w) o <;> rfl

/-- C6 witness: the string "45292" is numeric, so the serial path is
taken; the string "x1/2/2024" is `NaN`, so the text path is taken. -/
theorem c6_witness :
    (∃ d, excelSerialToDate (JSValue.vStr (("45292").data)) 0 = some d ∧
      fechaHoraOf 0 (some (JSValue.vStr (("45292").data))) =
        dispDate d 0 ++ (',' :: (' ' :: [])) ++ dispTime d 0 ∧
      fracturaOf 0 (some (JSValue.vStr (("45292").data))) =
        (JSValue.vStr (dispDate d 0), some d)) ∧
    fracturaOf 0 (some (JSValue.vStr (("x1/2/2024").data))) =
      (match parseDateTimeV (some (JSValue.vStr (("x1/2/2024").data))) 0 with
       | some dt => (JSValue.vStr (dispDate dt 0), some dt)
       | none => (JSValue.vStr (("x1/2/2024").data), none)) :=
  ⟨c6_numeric_precedence.1 0 (JSValue.vStr (("45292").data)) 45292 0 rfl rfl,
   (c6_numeric_precedence.2 0 (JSValue.vStr (("x1/2/2024").data)) rfl rfl).2⟩

/-- C9: a string fracture value that parses neither as a number nor as a
date keeps the raw text as display string with no canonical date;
when it decodes as a spreadsheet serial to a valid date, the canonical
date is retained and the display string is its formatted form. -/
theorem c9_fracture_fallback :
    ∀ (o : ℤ) (row : JSValue) (i : ℕ) (lbl : Str) (s : Str),
      getField row (fracKey i) = some (JSValue.vStr s) →
      (jsParseFloat s = none →
        parseDateTimeV (some (JSValue.vStr s)) o = none →
        (mkStage o row i lbl).fechaFractura = JSValue.vStr s ∧
        (mkStage o row i lbl).fechaFracturaDate = none) ∧
      (∀ (m : ℤ) (e : ℕ) (ts : ℤ), jsParseFloat s = some (JNum.fin m e) →
        serialNumToDate (JNum.fin m e) o = some ts →
        (mkStage o row i lbl).fechaFractura =
          JSValue.vStr (fmtDateEsAR (localComps ts o)) ∧
        (mkStage o row i lbl).fechaFracturaDate = some (some ts)) := by
  intro o row i lbl s hget
  constructor
  · intro hpf hpd
    by_cases hs : s = []
    · subst hs
      unfold mkStage fracturaOf
      rw [hget]
      exact ⟨rfl, rfl⟩
    · have htr : truthy (getField row (fracKey i)) = true := by
        rw [hget]; simpa [truthy, truthyV]
      have hpfv : parseFloatV (getField row (fracKey i)) = none := by
        rw [hget]; exact hpf
      have hpdv : parseDateTimeV (getField row (fracKey i)) o = none := by
        rw [hget]; exact hpd
      unfold mkStage fracturaOf
      rw [if_pos htr, hpfv, hpdv, hget]
      exact ⟨rfl, rfl⟩
  · intro m e ts hpf hts
    have hs : s ≠ [] := by
      intro h
      subst h
      have h0 : jsParseFloat ([] : Str) = none := rfl
      rw [h0] at hpf
      exact Option.noConfusion hpf
    have htr : truthy (getField row (fracKey i)) = true := by
      rw [hget]; simpa [truthy, truthyV]
    have hpfv : parseFloatV (getField row (fracKey i)) = some (JNum.fin m e) := by
      rw [hget]; exact hpf
    unfold mkStage fracturaOf
    rw [if_pos htr, hpfv]
    dsimp only
    rw [hts]
    exact ⟨rfl, rfl⟩

/-- C9 witness: "FRACTURADO" is kept raw with no canonical date;
"45300" decodes to 2024-01-09. -/
theorem c9_witness :
    ((mkStage 0 (JSValue.vObj [(fracKey 1, JSValue.vStr (("FRACTURADO").data))]) 1
        ('1' :: [])).fechaFractura = JSValue.vStr (("FRACTURADO").data) ∧
     (mkStage 0 (JSValue.vObj [(fracKey 1, JSValue.vStr (("FRACTURADO").data))]) 1
        ('1' :: [])).fechaFracturaDate = none) ∧
    ((mkStage 0 (JSValue.vObj [(fracKey 1, JSValue.vStr (("45300").data))]) 1
        ('1' :: [])).fechaFractura = JSValue.vStr (("9/1/2024").data) ∧
     (mkStage 0 (JSValue.vObj [(fracKey 1, JSValue.vStr (("45300").data))]) 1
        ('1' :: [])).fechaFracturaDate = some (some 1704758400000)) :=
  ⟨(c9_fracture_fallback 0 (JSValue.vObj [(fracKey 1, JSValue.vStr (("FRACTURADO").data))])
      1 ('1' :: []) (("FRACTURADO").data) rfl).1 (by decide) (by decide),
   (c9_fracture_fallback 0 (JSValue.vObj [(fracKey 1, JSValue.vStr (("45300").data))])
      1 ('1' :: []) (("45300").data) rfl).2 45300 0 1704758400000 (by decide) (by decide)⟩

/-! ## Claim C1: the serial decoder's calendar tuple -/

theorem civilFromDays_bounds (z : ℤ) :
    1 ≤ (civilFromDays z).2.1 ∧ (civilFromDays z).2.1 ≤ 12 ∧
    1 ≤ (civilFromDays z).2.2 ∧ (civilFromDays z).2.2 ≤ 31 := by
  obtain ⟨h1, h2, h3, h4, h5, h6⟩ :=
    yearMonthDayOfDoe_spec ((z + 719468) % 146097).toNat (by omega)
  unfold civilFromDays
  dsimp only
  exact ⟨h2, h3, h4, h5⟩

/-- The local reconstruction `new Date(y, mo, d, hh, mi, ss)` applied to
the UTC components of `ts` rebuilds `ts` truncated to whole seconds
(milliseconds are dropped by the six-argument constructor). -/
theorem comps_rebuild (ts : ℤ) :
    makeDay (msToComps ts).year ((msToComps ts).month : ℤ) ((msToComps ts).day : ℤ)
        * 86400000
      + ((msToComps ts).hour : ℤ) * 3600000 + ((msToComps ts).minute : ℤ) * 60000
      + ((msToComps ts).second : ℤ) * 1000 = ts - ts % 1000 := by
  obtain ⟨hm1, hm2, hd1, hd2⟩ := civilFromDays_bounds (ts / 86400000)
  have hL := daysFromCivil_civilFromDays (ts / 86400000)
  unfold msToComps makeDay
  dsimp only
  have hmcast : (((civilFromDays (ts / 86400000)).2.1 - 1 : ℕ) : ℤ) =
      ((civilFromDays (ts / 86400000)).2.1 : ℤ) - 1 := by omega
  rw [hmcast]
  have hdiv : (((civilFromDays (ts / 86400000)).2.1 : ℤ) - 1) / 12 = 0 := by omega
  have hmod : (((civilFromDays (ts / 86400000)).2.1 : ℤ) - 1) % 12 + 1 =
      ((civilFromDays (ts / 86400000)).2.1 : ℤ) := by omega
  rw [hdiv, hmod, add_zero, hL]
  omega

/-- Dropping the sub-second part of a time value leaves all exposed
components unchanged. -/
theorem msToComps_trunc (ts : ℤ) : msToComps (ts - ts % 1000) = msToComps ts := by
  unfold msToComps
  dsimp only
  have hdays : (ts - ts % 1000) / 86400000 = ts / 86400000 := by omega
  have hh : ((ts - ts % 1000) % 86400000).toNat / 3600000 =
      (ts % 86400000).toNat / 3600000 := by omega
  have hmi : ((ts - ts % 1000) % 86400000).toNat / 60000 % 60 =
      (ts % 86400000).toNat / 60000 % 60 := by omega
  have hss : ((ts - ts % 1000) % 86400000).toNat / 1000 % 60 =
      (ts % 86400000).toNat / 1000 % 60 := by omega
  rw [hdays, hh, hmi, hss]

theorem timeClip_some (t ts : ℤ) (h : timeClip t = some ts) : ts = t := by
  unfold timeClip at h
  by_cases hb : 8640000000000000 < t.natAbs
  · rw [if_pos hb] at h; exact absurd h (by simp)
  · rw [if_neg hb] at h; exact (Option.some.inj h).symm

/-- The UTC base instant the serial decoder reconstructs before the
offset shift: the local-components constructor's `MakeDate` value. -/
def serialBaseMs (m : ℤ) (e : ℕ) : ℤ :=
  makeDay (makeFullYear (msToComps (serialMsTrunc m e)).year)
      ((msToComps (serialMsTrunc m e)).month : ℤ) ((msToComps (serialMsTrunc m e)).day : ℤ)
      * 86400000
    + ((msToComps (serialMsTrunc m e)).hour : ℤ) * 3600000
    + ((msToComps (serialMsTrunc m e)).minute : ℤ) * 60000
    + ((msToComps (serialMsTrunc m e)).second : ℤ) * 1000

theorem serialNumToDate_some (m : ℤ) (e : ℕ) (o ts : ℤ)
    (h : serialNumToDate (JNum.fin m e) o = some ts) :
    ts = serialBaseMs m e - o * 60000 := by
  unfold serialNumToDate at h
  dsimp only at h
  by_cases hclip : 8640000000000000 * 10 ^ e < (serialMsNum m e).natAbs
  · rw [if_pos hclip] at h; exact absurd h (by simp)
  · rw [if_neg hclip] at h
    exact timeClip_some _ ts h

theorem decodeTuple_num_some (m : ℤ) (e : ℕ) (o : ℤ) (c : DateComps)
    (h : decodeTuple (JSValue.vNum m e) o = some (some c)) :
    c = msToComps (serialBaseMs m e) := by
  unfold decodeTuple excelSerialToDate at h
  have hpf : parseFloatV (some (JSValue.vNum m e)) = some (JNum.fin m e) := rfl
  rw [hpf] at h
  dsimp only [Option.map] at h
  have h2 : (serialNumToDate (JNum.fin m e) o).map (fun ts => localComps ts o) = some c :=
    Option.some.inj h
  cases hser : serialNumToDate (JNum.fin m e) o with
  | none => rw [hser] at h2; exact absurd h2 (by simp)
  | some ts =>
    rw [hser] at h2
    have hc : localComps ts o = c := Option.some.inj h2
    have hts := serialNumToDate_some m e o ts hser
    rw [← hc, hts]
    unfold localComps
    have harith : serialBaseMs m e - o * 60000 + o * 60000 = serialBaseMs m e := by ring
    rw [harith]

/-- C1 counterexample: serial -693593 has UTC components 0001-01-01, but
the `Date(y, mo, ...)` constructor maps years 0..99 to 1900+year, so the
decoded tuple is 1901-01-01, not the UTC components; and at the extreme
serial 100025569 (time value exactly 8.64e15) the decoded tuple is a
valid date at offset 0 but an Invalid Date at offset -840, so it is not
identical under every offset. -/
theorem c1_counterexample :
    decodeTuple (JSValue.vNum (-693593) 0) 0 = some (some ⟨1901, 0, 1, 0, 0, 0⟩) ∧
    msToComps (serialMsTrunc (-693593) 0) = ⟨1, 0, 1, 0, 0, 0⟩ ∧
    ¬ decodeTuple (JSValue.vNum (-693593) 0) 0 =
        some (some (msToComps (serialMsTrunc (-693593) 0))) ∧
    ¬ decodeTuple (JSValue.vNum 100025569 0) 0 =
        decodeTuple (JSValue.vNum 100025569 0) (-840) := by
  refine ⟨by decide, by decide, by decide, by decide⟩

/-- C1 (amended): whenever the decoder returns a valid date under two
offsets, the decoded calendar tuples agree (timezone independence); when
it returns a valid date and the UTC year of the truncated instant is not
in 0..99, the decoded tuple is exactly the UTC components of the instant
`(serial - 25569)` days after the Unix epoch; and serial 1 decodes to
1899-12-31 and serial 45292 to 2024-01-01 (also under offset -180). -/
theorem c1_serial_decode :
    (∀ (v : JSValue) (o1 o2 : ℤ) (c1 c2 : DateComps),
        decodeTuple v o1 = some (some c1) → decodeTuple v o2 = some (some c2) →
        c1 = c2) ∧
    (∀ (m : ℤ) (e : ℕ) (o : ℤ) (c : DateComps),
        decodeTuple (JSValue.vNum m e) o = some (some c) →
        ¬ (0 ≤ (msToComps (serialMsTrunc m e)).year ∧
            (msToComps (serialMsTrunc m e)).year ≤ 99) →
        c = msToComps (serialMsTrunc m e)) ∧
    decodeTuple (JSValue.vNum 1 0) 0 = some (some ⟨1899, 11, 31, 0, 0, 0⟩) ∧
    decodeTuple (JSValue.vNum 45292 0) 0 = some (some ⟨2024, 0, 1, 0, 0, 0⟩) ∧
    decodeTuple (JSValue.vNum 45292 0) (-180) = some (some ⟨2024, 0, 1, 0, 0, 0⟩) := by
  refine ⟨?_, ?_, by decide, by decide, by decide⟩
  · intro v o1 o2 c1 c2 h1 h2
    unfold decodeTuple excelSerialToDate at h1 h2
    cases hpf : parseFloatV (some v) with
    | none => rw [hpf] at h1; exact absurd h1 (by simp)
    | some n =>
      rw [hpf] at h1 h2
      cases n with
      | inf b =>
        exact absurd h1 (by simp [serialNumToDate])
      | fin m e =>
        have h1' : (serialNumToDate (JNum.fin m e) o1).map (fun ts => localComps ts o1)
            = some c1 := Option.some.inj h1
        have h2' : (serialNumToDate (JNum.fin m e) o2).map (fun ts => localComps ts o2)
            = some c2 := Option.some.inj h2
        cases hs1 : serialNumToDate (JNum.fin m e) o1 with
        | none => rw [hs1] at h1'; exact absurd h1' (by simp)
        | some ts1 =>
          cases hs2 : serialNumToDate (JNum.fin m e) o2 with
          | none => rw [hs2] at h2'; exact absurd h2' (by simp)
          | some ts2 =>
            rw [hs1] at h1'
            rw [hs2] at h2'
            have hc1 : localComps ts1 o1 = c1 := Option.some.inj h1'
            have hc2 : localComps ts2 o2 = c2 := Option.some.inj h2'
            have ht1 := serialNumToDate_some m e o1 ts1 hs1
            have ht2 := serialNumToDate_some m e o2 ts2 hs2
            rw [← hc1, ← hc2, ht1, ht2]
            unfold localComps
            have ha1 : serialBaseMs m e - o1 * 60000 + o1 * 60000 = serialBaseMs m e := by
              ring
            have ha2 : serialBaseMs m e - o2 * 60000 + o2 * 60000 = serialBaseMs m e := by
              ring
            rw [ha1, ha2]
  · intro m e o c h hyr
    have hc := decodeTuple_num_some m e o c h
    have hfy : makeFullYear (msToComps (serialMsTrunc m e)).year =
        (msToComps (serialMsTrunc m e)).year := by
      unfold makeFullYear
      rw [if_neg hyr]
    have hbase : serialBaseMs m e = serialMsTrunc m e - serialMsTrunc m e % 1000 := by
      unfold serialBaseMs
      rw [hfy]
      exact comps_rebuild (serialMsTrunc m e)
    rw [hc, hbase, msToComps_trunc]

/-- C1 witness: the offset-agreement applied to serial 45292 at offsets
0 and -180, and the UTC-components clause applied to serial 1 (UTC year
1899, outside 0..99). -/
theorem c1_witness :
    ((⟨2024, 0, 1, 0, 0, 0⟩ : DateComps) = ⟨2024, 0, 1, 0, 0, 0⟩) ∧
    ((⟨1899, 11, 31, 0, 0, 0⟩ : DateComps) = msToComps (serialMsTrunc 1 0)) :=
  ⟨c1_serial_decode.1 (JSValue.vNum 45292 0) 0 (-180) ⟨2024, 0, 1, 0, 0, 0⟩
      ⟨2024, 0, 1, 0, 0, 0⟩ (by decide) (by decide),
   c1_serial_decode.2.1 1 0 0 ⟨1899, 11, 31, 0, 0, 0⟩ (by decide) (by decide)⟩

/-! ## Claim C5: parseDateTimeString -/

/-- C5 counterexample: `parseInt` accepts integer prefixes, so
"1a/2/2024" (not three integers) still parses; two-digit years are
remapped by the constructor ("5/3/24" stores year 1924, not 24); and
out-of-range months are normalized ("5/13/2024" stores January 2025,
not month 13). -/
theorem c5_counterexample :
    parseDateTimeStr (("1a/2/2024").data) 0 ≠ none ∧
    (parseDateTimeStr (("5/3/24").data) 0).map
        (Option.map (fun ts => (localComps ts 0).year)) = some (some 1924) ∧
    (parseDateTimeStr (("5/13/2024").data) 0).map
        (Option.map (fun ts => localComps ts 0)) =
      some (some ⟨2025, 0, 5, 0, 0, 0⟩) := by
  refine ⟨by decide, by decide, by decide⟩

/-- Bound on the day number of a date within the years |Y| ≤ 270000,
used to show the constructed time value is within the `Date` range. -/
theorem daysFromCivil_bound (y m d : ℤ) (hy : y.natAbs ≤ 270000)
    (hm1 : 1 ≤ m) (hm2 : m ≤ 12) (hd1 : 1 ≤ d) (hd2 : d ≤ 31) :
    -99400000 ≤ daysFromCivil y m d ∧ daysFromCivil y m d ≤ 99400000 := by
  unfold daysFromCivil
  dsimp only
  split_ifs <;> omega

/-- C5 (amended): `parseDateTimeString` returns `null` exactly when the
trimmed input is empty, or its first whitespace-separated segment does
not split on `/` into exactly 3 parts each with an integer prefix
(`parseInt` semantics); when it does so split, the result is a `Date`
object, and when additionally (D, M, Y) is a valid proleptic Gregorian
date with Y outside 0..99 and within the `Date` range, the stored local
components are exactly (Y, M-1 zero-indexed, D) with the parsed time
components (missing ones zero). -/
theorem c5_text_decode :
    (∀ (s : Str) (o : ℤ), jsTrim s = [] → parseDateTimeStr s o = none) ∧
    (∀ (s : Str) (o : ℤ), jsTrim s ≠ [] →
      ∀ segs, splitOnCh '/' ((splitWs (jsTrim s)).headD []) = segs →
      (∀ a b c', segs = [a, b, c'] →
        jsParseInt a = none ∨ jsParseInt b = none ∨ jsParseInt c' = none) →
      (segs.length = 3 → False) ∨ True →
      parseDateTimeStr s o = none) ∧
    (∀ (s : Str) (o : ℤ) (a b c' : Str) (D M Y : ℤ), jsTrim s ≠ [] →
      splitOnCh '/' ((splitWs (jsTrim s)).headD []) = [a, b, c'] →
      jsParseInt a = some D → jsParseInt b = some M → jsParseInt c' = some Y →
      parseDateTimeStr s o ≠ none) ∧
    (∀ (s : Str) (o : ℤ) (dstr : Str) (tparts : List Str) (a b c' : Str)
        (D M Y hh mi ss : ℤ),
      jsTrim s ≠ [] →
      splitWs (jsTrim s) = dstr :: tparts →
      splitOnCh '/' dstr = [a, b, c'] →
      jsParseInt a = some D → jsParseInt b = some M → jsParseInt c' = some Y →
      readTimeParts tparts = some (hh, mi, ss) →
      1 ≤ M → M ≤ 12 → 1 ≤ D →
      civilFromDays (daysFromCivil Y M D) = (Y, M.toNat, D.toNat) →
      ¬ (0 ≤ Y ∧ Y ≤ 99) → Y.natAbs ≤ 270000 →
      0 ≤ hh → hh ≤ 23 → 0 ≤ mi → mi ≤ 59 → 0 ≤ ss → ss ≤ 59 →
      o.natAbs ≤ 840 →
      ∃ ts, parseDateTimeStr s o = some (some ts) ∧
        localComps ts o = ⟨Y, M.toNat - 1, D.toNat, hh.toNat, mi.toNat, ss.toNat⟩) := by
  refine ⟨?_, ?_, ?_, ?_⟩
  · intro s o h
    unfold parseDateTimeStr
    rw [if_pos h]
  · intro s o hne segs hsegs hfail _
    unfold parseDateTimeStr
    rw [if_neg hne]
    dsimp only
    rw [hsegs]
    match segs, hfail with
    | [], _ => rfl
    | [a], _ => rfl
    | [a, b], _ => rfl
    | a :: b :: c' :: d' :: rest, _ => rfl
    | [a, b, c'], hfail =>
      dsimp only
      rcases hfail a b c' rfl with hf | hf | hf
      · rw [hf]
      · rw [hf]
        all_goals cases jsParseInt a <;> cases jsParseInt c' <;> rfl
      · rw [hf]
        all_goals cases jsParseInt a <;> cases jsParseInt b <;> rfl
  · intro s o a b c' D M Y hne hsegs ha hb hc
    unfold parseDateTimeStr
    rw [if_neg hne]
    dsimp only
    rw [hsegs]
    dsimp only
    rw [ha, hb, hc]
    dsimp only
    cases hrt : readTimeParts (List.drop 1 (splitWs (jsTrim s))) with
    | none => simp
    | some t => simp
  · intro s o dstr tparts a b c' D M Y hh mi ss hne hsplit hsegs ha hb hc hrt
      hm1 hm2 hd1 hvalid hyr hybound hh0 hh23 hmi0 hmi59 hss0 hss59 ho
    have hd31 : D ≤ 31 ∧ 1 ≤ M.toNat ∧ M.toNat ≤ 12 := by
      have hbounds := civilFromDays_bounds (daysFromCivil Y M D)
      rw [hvalid] at hbounds
      dsimp only at hbounds
      omega
    obtain ⟨hdlo, hdhi⟩ := daysFromCivil_bound Y M D hybound hm1 hm2 hd1 hd31.1
    unfold parseDateTimeStr
    rw [if_neg hne]
    dsimp only
    rw [hsplit]
    try dsimp only
    rw [List.headD_cons, hsegs]
    try dsimp only
    rw [ha, hb, hc]
    try dsimp only
    rw [show List.drop 1 (dstr :: tparts) = tparts from rfl, hrt]
    try dsimp only
    unfold mkDateLocal makeFullYear makeDay
    rw [if_neg hyr]
    have hmo1 : (M - 1) / 12 = 0 := by omega
    have hmo2 : (M - 1) % 12 + 1 = M := by omega
    rw [hmo1, hmo2, add_zero]
    have hclip : ¬ 8640000000000000 <
        (daysFromCivil Y M D * 86400000 + hh * 3600000 + mi * 60000 + ss * 1000
          - o * 60000).natAbs := by
      omega
    unfold timeClip
    rw [if_neg hclip]
    refine ⟨_, rfl, ?_⟩
    unfold localComps msToComps
    dsimp only
    have harith : daysFromCivil Y M D * 86400000 + hh * 3600000 + mi * 60000 + ss * 1000
        - o * 60000 + o * 60000 =
        daysFromCivil Y M D * 86400000 + (hh * 3600000 + mi * 60000 + ss * 1000) := by
      ring
    rw [harith]
    have hdayq : (daysFromCivil Y M D * 86400000 +
        (hh * 3600000 + mi * 60000 + ss * 1000)) / 86400000 = daysFromCivil Y M D := by
      omega
    have htwd : ((daysFromCivil Y M D * 86400000 +
        (hh * 3600000 + mi * 60000 + ss * 1000)) % 86400000).toNat =
        (hh * 3600000 + mi * 60000 + ss * 1000).toNat := by
      omega
    rw [hdayq, htwd, hvalid]
    have hhv : (hh * 3600000 + mi * 60000 + ss * 1000).toNat / 3600000 = hh.toNat := by
      omega
    have hmv : (hh * 3600000 + mi * 60000 + ss * 1000).toNat / 60000 % 60 = mi.toNat := by
      omega
    have hsv : (hh * 3600000 + mi * 60000 + ss * 1000).toNat / 1000 % 60 = ss.toNat := by
      omega
    rw [hhv, hmv, hsv]

/-- C5 witness: "05/03/2024 14:30" stores (2024, month index 2, 5,
14:30:00), via the component clause with every hypothesis checked
concretely. -/
theorem c5_witness :
    ∃ ts, parseDateTimeStr (("05/03/2024 14:30").data) 0 = some (some ts) ∧
      localComps ts 0 = ⟨2024, 2, 5, 14, 30, 0⟩ :=
  c5_text_decode.2.2.2 (("05/03/2024 14:30").data) 0 (("05/03/2024").data)
    [("14:30").data] (("05").data) (("03").data) (("2024").data) 5 3 2024 14 30 0
    (by decide) (by decide) (by decide) (by decide) (by decide) (by decide) (by decide)
    (by decide) (by decide) (by decide) (by decide) (by decide) (by decide)
    (by decide) (by decide) (by decide) (by decide) (by decide) (by decide) (by decide)

/-! ## Claim C7: the JSON.stringify change gate

The fetch handler re-renders exactly when
`JSON.stringify(data) !== JSON.stringify(currentData)`.  We model
`JSON.stringify` on `JSValue` (the post-`resp.json()` payloads): string
escaping per `QuoteJSONString`, numbers as their decimal `ToString`,
arrays and objects in element/insertion order. -/

/-- Lowercase hexadecimal digit, as `QuoteJSONString` formats code units. -/
def hexDigit (n : ℕ) : Char := if n < 10 then Char.ofNat (48 + n) else Char.ofNat (87 + n)

/-- Escape of one character inside a JSON string literal
(`QuoteJSONString`): quote and backslash get two-character escapes, the
named control characters get theirs, other code units below 0x20 get a
four-digit unicode escape, and everything else stands for itself. -/
def escCh (c : Char) : List Char :=
  if c = '"' then ('\\' :: ('"' :: []))
  else if c = '\\' then ('\\' :: ('\\' :: []))
  else if c.toNat = 8 then ('\\' :: ('b' :: []))
  else if c.toNat = 9 then ('\\' :: ('t' :: []))
  else if c.toNat = 10 then ('\\' :: ('n' :: []))
  else if c.toNat = 12 then ('\\' :: ('f' :: []))
  else if c.toNat = 13 then ('\\' :: ('r' :: []))
  else if c.toNat < 32 then
    ('\\' :: ('u' :: ('0' :: ('0' :: (hexDigit (c.toNat / 16) :: (hexDigit (c.toNat % 16) :: []))))))
  else (c :: [])

/-- Escape of a whole string body. -/
def escStr : Str → Str
  | [] => []
  | c :: r => escCh c ++ escStr r

/-- A JSON string literal: quoted, escaped body. -/
def quoteStr (s : Str) : Str := '"' :: (escStr s ++ ('"' :: []))

/-- Opening brace character. -/
def obChar : Char := Char.ofNat 123

/-- Closing brace character. -/
def cbChar : Char := Char.ofNat 125

mutual
/-- `JSON.stringify` of a JSON value. -/
def jsonStr : JSValue → Str
  | JSValue.vNull => ('n' :: ('u' :: ('l' :: ('l' :: []))))
  | JSValue.vBool b =>
    if b then ('t' :: ('r' :: ('u' :: ('e' :: []))))
    else ('f' :: ('a' :: ('l' :: ('s' :: ('e' :: [])))))
  | JSValue.vNum m e => decChars m e
  | JSValue.vStr s => quoteStr s
  | JSValue.vArr xs => '[' :: (jsonItems xs ++ (']' :: []))
  | JSValue.vObj fs => obChar :: (jsonFields fs ++ (cbChar :: []))

/-- Comma-separated serialisations of array elements. -/
def jsonItems : List JSValue → Str
  | [] => []
  | [x] => jsonStr x
  | x :: y :: rest => jsonStr x ++ (',' :: jsonItems (y :: rest))

/-- Comma-separated serialisations of object fields, each as
quoted key, colon, value. -/
def jsonFields : List (Str × JSValue) → Str
  | [] => []
  | [(k, v)] => quoteStr k ++ (':' :: jsonStr v)
  | (k, v) :: f :: rest =>
    (quoteStr k ++ (':' :: jsonStr v)) ++ (',' :: jsonFields (f :: rest))
end

/-- The change gate of `fetchData`: the serialisations differ. -/
def hasChanged (x y : JSValue) : Bool :=
  if jsonStr x = jsonStr y then false else true

mutual
/-- Every number in the value is a canonical scaled decimal, as
`JSON.parse` produces (a JS double has a single decimal rendering). -/
def isCanonV : JSValue → Bool
  | JSValue.vNull => true
  | JSValue.vBool _ => true
  | JSValue.vNum m e => isCanonDec m e
  | JSValue.vStr _ => true
  | JSValue.vArr xs => isCanonL xs
  | JSValue.vObj fs => isCanonF fs

/-- Canonicity of every element of an array. -/
def isCanonL : List JSValue → Bool
  | [] => true
  | x :: r => isCanonV x && isCanonL r

/-- Canonicity of every field value of an object. -/
def isCanonF : List (Str × JSValue) → Bool
  | [] => true
  | (_, v) :: r => isCanonV v && isCanonF r
end

/-- Characters that can occur in the decimal rendering of a number. -/
def numCh (c : Char) : Bool := isDigitCh c || c = '-' || c = '.'

/-- Characters other than the decimal point. -/
def notDot (c : Char) : Bool := c ≠ '.'

/-- A valid continuation after a serialised number: empty, or starting
with a character no number rendering contains. -/
def sepOk (t : Str) : Prop := ∀ c r, t = c :: r → numCh c = false

mutual
/-- Size of a value, for strong induction. -/
def sizeV : JSValue → ℕ
  | JSValue.vNull => 1
  | JSValue.vBool _ => 1
  | JSValue.vNum _ _ => 1
  | JSValue.vStr _ => 1
  | JSValue.vArr xs => sizeL xs + 1
  | JSValue.vObj fs => sizeF fs + 1

/-- Size of an element list. -/
def sizeL : List JSValue → ℕ
  | [] => 1
  | x :: r => sizeV x + sizeL r

/-- Size of a field list. -/
def sizeF : List (Str × JSValue) → ℕ
  | [] => 1
  | (_, v) :: r => sizeV v + sizeF r
end

/-- Inverse of the decimal rendering: optional sign, integer part up to
the decimal point, fractional part after it. -/
def decVal (s : Str) : ℤ × ℕ :=
  if s.headD 'x' = '-' then
    (-(digitsVal (((s.drop 1).takeWhile notDot) ++ ((s.drop 1).dropWhile notDot).drop 1) : ℤ),
      (((s.drop 1).dropWhile notDot).drop 1).length)
  else
    ((digitsVal ((s.takeWhile notDot) ++ (s.dropWhile notDot).drop 1) : ℤ),
      ((s.dropWhile notDot).drop 1).length)

/-- Value of a lowercase hexadecimal digit character. -/
def hexVal (c : Char) : ℕ := if c.toNat ≤ 57 then c.toNat - 48 else c.toNat - 87

/-- Decodes one (possibly escaped) character of a JSON string body,
returning it with the rest of the input. -/
def unescCh : List Char → Option (Char × List Char)
  | [] => none
  | c :: r =>
    if c = '\\' then
      match r with
      | [] => none
      | d :: r2 =>
        if d = '"' then some ('"', r2)
        else if d = '\\' then some ('\\', r2)
        else if d = 'b' then some (Char.ofNat 8, r2)
        else if d = 't' then some (Char.ofNat 9, r2)
        else if d = 'n' then some (Char.ofNat 10, r2)
        else if d = 'f' then some (Char.ofNat 12, r2)
        else if d = 'r' then some (Char.ofNat 13, r2)
        else if d = 'u' then
          match r2 with
          | _ :: (_ :: (x :: (y :: r3))) => some (Char.ofNat (hexVal x * 16 + hexVal y), r3)
          | _ => none
        else none
    else some (c, r)

theorem charToNat_inj (a b : Char) (h : a.toNat = b.toNat) : a = b :=
  Char.ext (UInt32.ext h)

theorem hexDigit_toNat (n : ℕ) (hn : n < 16) :
    (hexDigit n).toNat = (if n < 10 then 48 + n else 87 + n) := by
  interval_cases n <;> rfl

theorem hexDigit_inj (m n : ℕ) (hm : m < 16) (hn : n < 16)
    (h : hexDigit m = hexDigit n) : m = n := by
  have h2 : (hexDigit m).toNat = (hexDigit n).toNat := by rw [h]
  rw [hexDigit_toNat m hm, hexDigit_toNat n hn] at h2
  split_ifs at h2 <;> omega

theorem hexVal_hexDigit (n : ℕ) (hn : n < 16) : hexVal (hexDigit n) = n := by
  unfold hexVal
  rw [hexDigit_toNat n hn]
  split_ifs <;> omega

theorem unescCh_escCh (c : Char) (u : List Char) :
    unescCh (escCh c ++ u) = some (c, u) := by
  unfold escCh
  split_ifs with hq hb h8 h9 h10 h12 h13 h32
  · subst hq; rfl
  · subst hb; rfl
  · rw [charToNat_inj c (Char.ofNat 8) (by rw [h8]; rfl)]; rfl
  · rw [charToNat_inj c (Char.ofNat 9) (by rw [h9]; rfl)]; rfl
  · rw [charToNat_inj c (Char.ofNat 10) (by rw [h10]; rfl)]; rfl
  · rw [charToNat_inj c (Char.ofNat 12) (by rw [h12]; rfl)]; rfl
  · rw [charToNat_inj c (Char.ofNat 13) (by rw [h13]; rfl)]; rfl
  · show unescCh ('\\' :: ('u' :: ('0' :: ('0' ::
        (hexDigit (c.toNat / 16) :: (hexDigit (c.toNat % 16) :: u)))))) = some (c, u)
    unfold unescCh
    dsimp only
    rw [if_pos rfl]
    simp only [if_neg (by decide : ¬ ('u' : Char) = '"'),
      if_neg (by decide : ¬ ('u' : Char) = '\\'),
      if_neg (by decide : ¬ ('u' : Char) = 'b'),
      if_neg (by decide : ¬ ('u' : Char) = 't'),
      if_neg (by decide : ¬ ('u' : Char) = 'n'),
      if_neg (by decide : ¬ ('u' : Char) = 'f'),
      if_neg (by decide : ¬ ('u' : Char) = 'r'),
      if_pos (rfl : ('u' : Char) = 'u')]
    rw [hexVal_hexDigit _ (by omega), hexVal_hexDigit _ (by omega)]
    rw [show c.toNat / 16 * 16 + c.toNat % 16 = c.toNat by omega, Char.ofNat_toNat]
    simp
  · show unescCh (c :: u) = some (c, u)
    unfold unescCh
    dsimp only
    rw [if_neg hb]

theorem escCh_det (c1 c2 : Char) (u1 u2 : List Char)
    (h : escCh c1 ++ u1 = escCh c2 ++ u2) : c1 = c2 ∧ u1 = u2 := by
  have h2 := congrArg unescCh h
  rw [unescCh_escCh, unescCh_escCh] at h2
  obtain ⟨h3, h4⟩ := Prod.mk.injEq .. ▸ Option.some.inj h2
  exact ⟨h3, h4⟩

theorem escCh_ne_nil (c : Char) : escCh c ≠ [] := by
  unfold escCh
  split_ifs <;> simp

theorem escCh_head (c : Char) : ∃ d r, escCh c = d :: r ∧ d ≠ '"' := by
  unfold escCh
  split_ifs with hq hb
  · exact ⟨'\\', _, rfl, by decide⟩
  · exact ⟨'\\', _, rfl, by decide⟩
  · exact ⟨'\\', _, rfl, by decide⟩
  · exact ⟨'\\', _, rfl, by decide⟩
  · exact ⟨'\\', _, rfl, by decide⟩
  · exact ⟨'\\', _, rfl, by decide⟩
  · exact ⟨'\\', _, rfl, by decide⟩
  · exact ⟨'\\', _, rfl, by decide⟩
  · exact ⟨c, [], rfl, hq⟩

theorem escStr_quote_det : ∀ s1 s2 t1 t2 : Str,
    escStr s1 ++ '"' :: t1 = escStr s2 ++ '"' :: t2 → s1 = s2 ∧ t1 = t2 := by
  intro s1
  induction s1 with
  | nil =>
    intro s2 t1 t2 h
    cases s2 with
    | nil => simpa using h
    | cons c s2' =>
      obtain ⟨d, r, hd, hne⟩ := escCh_head c
      rw [show escStr (c :: s2') = escCh c ++ escStr s2' from rfl, hd] at h
      simp only [escStr, List.nil_append, List.cons_append, List.cons.injEq] at h
      exact absurd h.1.symm hne
  | cons c1 s1' IH =>
    intro s2 t1 t2 h
    cases s2 with
    | nil =>
      obtain ⟨d, r, hd, hne⟩ := escCh_head c1
      rw [show escStr (c1 :: s1') = escCh c1 ++ escStr s1' from rfl, hd] at h
      simp only [escStr, List.nil_append, List.cons_append, List.cons.injEq] at h
      exact absurd h.1 hne
    | cons c2 s2' =>
      rw [show escStr (c1 :: s1') = escCh c1 ++ escStr s1' from rfl,
        show escStr (c2 :: s2') = escCh c2 ++ escStr s2' from rfl,
        List.append_assoc, List.append_assoc] at h
      obtain ⟨hc, hrest⟩ := escCh_det _ _ _ _ h
      obtain ⟨hs, ht⟩ := IH _ _ _ hrest
      exact ⟨by rw [hc, hs], ht⟩

theorem quoteStr_det (s1 s2 t1 t2 : Str)
    (h : quoteStr s1 ++ t1 = quoteStr s2 ++ t2) : s1 = s2 ∧ t1 = t2 := by
  unfold quoteStr at h
  simp only [List.cons_append, List.cons.injEq, List.append_assoc,
    List.singleton_append] at h
  exact escStr_quote_det _ _ _ _ h.2

theorem digitChar_digit (d : ℕ) (h : d < 10) : isDigitCh (digitChar d) = true := by
  interval_cases d <;> decide

theorem digitChar_toNat (d : ℕ) (h : d < 10) : (digitChar d).toNat = 48 + d := by
  interval_cases d <;> rfl

theorem natCharsAux_ne : ∀ (fuel n : ℕ) (acc : List Char), natCharsAux fuel n acc ≠ [] := by
  intro fuel
  induction fuel with
  | zero => intro n acc; simp [natCharsAux]
  | succ f IH =>
    intro n acc
    unfold natCharsAux
    split_ifs
    · simp
    · exact IH _ _

theorem natCharsAux_digits : ∀ (fuel n : ℕ) (acc : Str), n ≤ fuel →
    (∀ c ∈ acc, isDigitCh c = true) →
    ∀ c ∈ natCharsAux fuel n acc, isDigitCh c = true := by
  intro fuel
  induction fuel with
  | zero =>
    intro n acc hn hacc c hc
    have hn0 : n = 0 := by omega
    subst hn0
    rcases List.mem_cons.mp hc with h | h
    · subst h; decide
    · exact hacc c h
  | succ f IH =>
    intro n acc hn hacc c hc
    unfold natCharsAux at hc
    by_cases h10 : n < 10
    · rw [if_pos h10] at hc
      rcases List.mem_cons.mp hc with h | h
      · subst h; exact digitChar_digit n h10
      · exact hacc c h
    · rw [if_neg h10] at hc
      refine IH (n / 10) _ (by omega) ?_ c hc
      intro d hd
      rcases List.mem_cons.mp hd with h | h
      · subst h; exact digitChar_digit _ (by omega)
      · exact hacc d h

theorem natChars_digits (n : ℕ) : ∀ c ∈ natChars n, isDigitCh c = true :=
  natCharsAux_digits n n [] le_rfl (by intro c hc; simp at hc)

theorem natCharsAux_val : ∀ (fuel n : ℕ) (acc : Str), n ≤ fuel →
    digitsVal (natCharsAux fuel n acc) =
      acc.foldl (fun a c => 10 * a + (c.toNat - 48)) n := by
  intro fuel
  induction fuel with
  | zero =>
    intro n acc hn
    have hn0 : n = 0 := by omega
    subst hn0
    rfl
  | succ f IH =>
    intro n acc hn
    unfold natCharsAux
    by_cases h10 : n < 10
    · rw [if_pos h10]
      show acc.foldl _ (10 * 0 + ((digitChar n).toNat - 48)) = acc.foldl _ n
      rw [digitChar_toNat n h10, show 10 * 0 + (48 + n - 48) = n from by omega]
    · rw [if_neg h10]
      rw [IH (n / 10) _ (by omega)]
      show acc.foldl _ (10 * (n / 10) + ((digitChar (n % 10)).toNat - 48)) = acc.foldl _ n
      rw [digitChar_toNat _ (by omega),
        show 10 * (n / 10) + (48 + n % 10 - 48) = n from by omega]

theorem natChars_val (n : ℕ) : digitsVal (natChars n) = n :=
  natCharsAux_val n n [] le_rfl

theorem digitsVal_rep : ∀ (k : ℕ) (l : Str),
    digitsVal (List.replicate k '0' ++ l) = digitsVal l := by
  intro k
  induction k with
  | zero => intro l; rfl
  | succ f IH =>
    intro l
    rw [List.replicate_succ, List.cons_append,
      show digitsVal ('0' :: (List.replicate f '0' ++ l)) =
        digitsVal (List.replicate f '0' ++ l) from rfl]
    exact IH l

theorem dig_notDot (c : Char) (h : isDigitCh c = true) : notDot c = true := by
  by_cases hc : c = '.'
  · subst hc; exact absurd h (by decide)
  · simp [notDot, hc]

theorem dig_ne_neg (c : Char) (h : isDigitCh c = true) : ¬ c = '-' :=
  fun hc => absurd (hc ▸ h) (by decide)

theorem isDigit_numCh (c : Char) (h : isDigitCh c = true) : numCh c = true := by
  simp [numCh, h]

theorem takeWhile_stop (p : Char → Bool) : ∀ (l t : Str), (∀ c ∈ l, p c = true) →
    (∀ c r, t = c :: r → p c = false) →
    (l ++ t).takeWhile p = l ∧ (l ++ t).dropWhile p = t := by
  intro l
  induction l with
  | nil =>
    intro t hall ht
    constructor
    · cases t with
      | nil => rfl
      | cons c r => simp [List.takeWhile_cons, ht c r rfl]
    · cases t with
      | nil => rfl
      | cons c r => simp [List.dropWhile_cons, ht c r rfl]
  | cons c l' IH =>
    intro t hall ht
    obtain ⟨h1, h2⟩ := IH t (fun d hd => hall d (List.mem_cons_of_mem c hd)) ht
    constructor
    · simp [List.takeWhile_cons, hall c (List.mem_cons_self c l'), h1]
    · simp [List.dropWhile_cons, hall c (List.mem_cons_self c l'), h2]

theorem ds2_digits (m : ℤ) (e : ℕ) :
    ∀ c ∈ List.replicate (e + 1 - (natChars m.natAbs).length) '0' ++ natChars m.natAbs,
      isDigitCh c = true := by
  intro c hc
  rcases List.mem_append.mp hc with h | h
  · rw [List.eq_of_mem_replicate h]; decide
  · exact natChars_digits _ c h

theorem decChars_all (m : ℤ) (e : ℕ) : ∀ c ∈ decChars m e, numCh c = true := by
  intro c hc
  unfold decChars at hc
  by_cases he : e = 0
  · rw [if_pos he] at hc
    unfold intChars at hc
    by_cases hm : m < 0
    · rw [if_pos hm] at hc
      rcases List.mem_cons.mp hc with h | h
      · subst h; decide
      · exact isDigit_numCh _ (natChars_digits _ c h)
    · rw [if_neg hm] at hc
      exact isDigit_numCh _ (natChars_digits _ c hc)
  · rw [if_neg he] at hc
    dsimp only at hc
    rcases List.mem_append.mp hc with h | h
    · split_ifs at h
      · rw [List.mem_singleton.mp h]; decide
      · simp at h
    · rcases List.mem_append.mp h with h2 | h2
      · exact isDigit_numCh _ (ds2_digits m e c (List.take_subset _ _ h2))
      · rcases List.mem_cons.mp h2 with h3 | h3
        · subst h3; decide
        · exact isDigit_numCh _ (ds2_digits m e c (List.drop_subset _ _ h3))

theorem decChars_head (m : ℤ) (e : ℕ) :
    ∃ c r, decChars m e = c :: r ∧ numCh c = true := by
  cases hd : decChars m e with
  | cons c r =>
    exact ⟨c, r, rfl, decChars_all m e c (by rw [hd]; exact List.mem_cons_self c r)⟩
  | nil =>
    exfalso
    unfold decChars at hd
    by_cases he : e = 0
    · rw [if_pos he] at hd
      unfold intChars at hd
      split_ifs at hd
      all_goals
        first
          | exact List.noConfusion hd
          | exact natCharsAux_ne _ _ _ hd
    · rw [if_neg he] at hd
      dsimp only at hd
      rcases List.append_eq_nil.mp hd with ⟨-, h2⟩
      rcases List.append_eq_nil.mp h2 with ⟨-, h3⟩
      exact List.noConfusion h3

theorem decVal_core_pos (ds2 : Str) (e : ℕ)
    (hdig : ∀ c ∈ ds2, isDigitCh c = true) (hlen : e + 1 ≤ ds2.length) :
    decVal (ds2.take (ds2.length - e) ++ '.' :: ds2.drop (ds2.length - e)) =
      ((digitsVal ds2 : ℤ), e) := by
  obtain ⟨c0, tk, htk⟩ : ∃ c0 tk, ds2.take (ds2.length - e) = c0 :: tk := by
    cases h : ds2.take (ds2.length - e) with
    | nil =>
      exfalso
      have h2 := congrArg List.length h
      simp [List.length_take] at h2
      omega
    | cons c0 tk => exact ⟨c0, tk, rfl⟩
  have hc0 : isDigitCh c0 = true :=
    hdig c0 (List.take_subset _ _ (by rw [htk]; exact List.mem_cons_self _ _))
  unfold decVal
  rw [htk, List.cons_append, List.headD_cons, if_neg (dig_ne_neg c0 hc0),
    ← List.cons_append, ← htk]
  obtain ⟨hT, hD⟩ := takeWhile_stop notDot (ds2.take (ds2.length - e))
      ('.' :: ds2.drop (ds2.length - e))
      (fun c hc => dig_notDot c (hdig c (List.take_subset _ _ hc)))
      (by intro c r h; injection h with h1 h2; rw [← h1]; decide)
  rw [hT, hD,
    show ('.' :: ds2.drop (ds2.length - e)).drop 1 = ds2.drop (ds2.length - e) from rfl,
    List.take_append_drop, List.length_drop,
    show ds2.length - (ds2.length - e) = e from by omega]

theorem decVal_core_neg (ds2 : Str) (e : ℕ)
    (hdig : ∀ c ∈ ds2, isDigitCh c = true) (hlen : e + 1 ≤ ds2.length) :
    decVal ('-' :: (ds2.take (ds2.length - e) ++ '.' :: ds2.drop (ds2.length - e))) =
      (-(digitsVal ds2 : ℤ), e) := by
  unfold decVal
  rw [List.headD_cons, if_pos rfl,
    show ('-' :: (ds2.take (ds2.length - e) ++ '.' :: ds2.drop (ds2.length - e))).drop 1 =
      ds2.take (ds2.length - e) ++ '.' :: ds2.drop (ds2.length - e) from rfl]
  obtain ⟨hT, hD⟩ := takeWhile_stop notDot (ds2.take (ds2.length - e))
      ('.' :: ds2.drop (ds2.length - e))
      (fun c hc => dig_notDot c (hdig c (List.take_subset _ _ hc)))
      (by intro c r h; injection h with h1 h2; rw [← h1]; decide)
  rw [hT, hD,
    show ('.' :: ds2.drop (ds2.length - e)).drop 1 = ds2.drop (ds2.length - e) from rfl,
    List.take_append_drop, List.length_drop,
    show ds2.length - (ds2.length - e) = e from by omega]

theorem decVal_decChars (m : ℤ) (e : ℕ) : decVal (decChars m e) = (m, e) := by
  by_cases he : e = 0
  · subst he
    rw [show decChars m 0 = intChars m from by unfold decChars; rw [if_pos rfl]]
    unfold intChars
    by_cases hm : m < 0
    · rw [if_pos hm]
      unfold decVal
      rw [List.headD_cons, if_pos rfl,
        show ('-' :: natChars m.natAbs).drop 1 = natChars m.natAbs from rfl,
        List.takeWhile_eq_self_iff.mpr (fun c hc => dig_notDot c (natChars_digits _ c hc)),
        List.dropWhile_eq_nil_iff.mpr (fun c hc => dig_notDot c (natChars_digits _ c hc)),
        show (([] : Str).drop 1) = ([] : Str) from rfl, List.append_nil, natChars_val,
        show -((m.natAbs : ℕ) : ℤ) = m from by omega]
      rfl
    · rw [if_neg hm]
      obtain ⟨c, r, hcr⟩ : ∃ c r, natChars m.natAbs = c :: r := by
        cases h : natChars m.natAbs with
        | nil => exact absurd h (natCharsAux_ne _ _ _)
        | cons c r => exact ⟨c, r, rfl⟩
      have hcd : isDigitCh c = true :=
        natChars_digits _ c (by rw [hcr]; exact List.mem_cons_self c r)
      unfold decVal
      rw [hcr, List.headD_cons, if_neg (dig_ne_neg c hcd), ← hcr,
        List.takeWhile_eq_self_iff.mpr (fun d hd => dig_notDot d (natChars_digits _ d hd)),
        List.dropWhile_eq_nil_iff.mpr (fun d hd => dig_notDot d (natChars_digits _ d hd)),
        show (([] : Str).drop 1) = ([] : Str) from rfl, List.append_nil, natChars_val,
        show ((m.natAbs : ℕ) : ℤ) = m from by omega]
      rfl
  · have hlen : e + 1 ≤
        (List.replicate (e + 1 - (natChars m.natAbs).length) '0' ++ natChars m.natAbs).length := by
      have h1 : 1 ≤ (natChars m.natAbs).length :=
        List.length_pos.mpr (natCharsAux_ne _ _ _)
      simp only [List.length_append, List.length_replicate]
      omega
    have hval : digitsVal
        (List.replicate (e + 1 - (natChars m.natAbs).length) '0' ++ natChars m.natAbs) =
        m.natAbs := by
      rw [digitsVal_rep, natChars_val]
    rw [show decChars m e = (if m < 0 then ['-'] else []) ++
        ((List.replicate (e + 1 - (natChars m.natAbs).length) '0' ++ natChars m.natAbs).take
            ((List.replicate (e + 1 - (natChars m.natAbs).length) '0' ++
              natChars m.natAbs).length - e) ++
          '.' :: (List.replicate (e + 1 - (natChars m.natAbs).length) '0' ++
              natChars m.natAbs).drop
            ((List.replicate (e + 1 - (natChars m.natAbs).length) '0' ++
              natChars m.natAbs).length - e))
      from by unfold decChars; rw [if_neg he]]
    by_cases hm : m < 0
    · rw [if_pos hm, List.singleton_append,
        decVal_core_neg _ e (ds2_digits m e) hlen, hval,
        show -((m.natAbs : ℕ) : ℤ) = m from by omega]
    · rw [if_neg hm, List.nil_append,
        decVal_core_pos _ e (ds2_digits m e) hlen, hval,
        show ((m.natAbs : ℕ) : ℤ) = m from by omega]

theorem decChars_inj (m1 m2 : ℤ) (e1 e2 : ℕ)
    (h : decChars m1 e1 = decChars m2 e2) : m1 = m2 ∧ e1 = e2 := by
  have h2 := congrArg decVal h
  rw [decVal_decChars, decVal_decChars] at h2
  exact ⟨congrArg Prod.fst h2, congrArg Prod.snd h2⟩

theorem sizeV_pos (v : JSValue) : 1 ≤ sizeV v := by
  cases v <;> (unfold sizeV) <;> omega

theorem sizeL_pos (xs : List JSValue) : 1 ≤ sizeL xs := by
  cases xs with
  | nil => exact le_rfl
  | cons x r => have := sizeV_pos x; unfold sizeL; omega

theorem sizeF_pos (fs : List (Str × JSValue)) : 1 ≤ sizeF fs := by
  cases fs with
  | nil => exact le_rfl
  | cons f r => obtain ⟨k, v⟩ := f; have := sizeV_pos v; unfold sizeF; omega

theorem jsonStr_head (v : JSValue) :
    ∃ c r, jsonStr v = c :: r ∧
      (c = 'n' ∨ c = 't' ∨ c = 'f' ∨ numCh c = true ∨ c = '"' ∨ c = '[' ∨ c = obChar) := by
  cases v with
  | vNull => exact ⟨'n', _, rfl, Or.inl rfl⟩
  | vBool b =>
    cases b with
    | true => exact ⟨'t', _, rfl, Or.inr (Or.inl rfl)⟩
    | false => exact ⟨'f', _, rfl, Or.inr (Or.inr (Or.inl rfl))⟩
  | vNum m e =>
    obtain ⟨c, r, hc, hn⟩ := decChars_head m e
    exact ⟨c, r, hc, Or.inr (Or.inr (Or.inr (Or.inl hn)))⟩
  | vStr s => exact ⟨'"', _, rfl, Or.inr (Or.inr (Or.inr (Or.inr (Or.inl rfl))))⟩
  | vArr xs => exact ⟨'[', _, rfl, Or.inr (Or.inr (Or.inr (Or.inr (Or.inr (Or.inl rfl)))))⟩
  | vObj fs =>
    exact ⟨obChar, _, rfl, Or.inr (Or.inr (Or.inr (Or.inr (Or.inr (Or.inr rfl)))))⟩

theorem head_clash (c1 c2 : Char) (r1 r2 t1 t2 : List Char) (hne : ¬ c1 = c2)
    (h : (c1 :: r1) ++ t1 = (c2 :: r2) ++ t2) : False := by
  simp only [List.cons_append] at h
  injection h with hh _
  exact hne hh

theorem num_head_clash (m : ℤ) (e : ℕ) (d : Char) (hd : numCh d = false)
    (r t1 t2 : Str) (h : decChars m e ++ t1 = (d :: r) ++ t2) : False := by
  obtain ⟨c, cr, hc, hn⟩ := decChars_head m e
  rw [hc] at h
  simp only [List.cons_append] at h
  injection h with hh _
  rw [hh] at hn
  rw [hn] at hd
  exact Bool.noConfusion hd

theorem num_head_clash2 (m : ℤ) (e : ℕ) (d : Char) (hd : numCh d = false)
    (r t1 t2 : Str) (h : (d :: r) ++ t1 = decChars m e ++ t2) : False :=
  num_head_clash m e d hd r t2 t1 h.symm

theorem jsonItems_split2 (y : JSValue) (ys : List JSValue) (t : Str) :
    ∃ u, jsonItems (y :: ys) ++ ']' :: t = jsonStr y ++ u ∧ sepOk u ∧
      ((ys = [] ∧ u = ']' :: t) ∨
        (ys ≠ [] ∧ u = ',' :: (jsonItems ys ++ ']' :: t))) := by
  cases ys with
  | nil =>
    refine ⟨']' :: t, rfl, ?_, Or.inl ⟨rfl, rfl⟩⟩
    intro c r h
    injection h with h1 _
    rw [← h1]; decide
  | cons z zs =>
    refine ⟨',' :: (jsonItems (z :: zs) ++ ']' :: t), ?_, ?_, Or.inr ⟨by simp, rfl⟩⟩
    · rw [show jsonItems (y :: (z :: zs)) = jsonStr y ++ (',' :: jsonItems (z :: zs)) from rfl]
      simp [List.append_assoc]
    · intro c r h
      injection h with h1 _
      rw [← h1]; decide

theorem jsonFields_split2 (k : Str) (v : JSValue) (fs : List (Str × JSValue)) (t : Str) :
    ∃ u, jsonFields ((k, v) :: fs) ++ cbChar :: t =
        quoteStr k ++ (':' :: (jsonStr v ++ u)) ∧ sepOk u ∧
      ((fs = [] ∧ u = cbChar :: t) ∨
        (fs ≠ [] ∧ u = ',' :: (jsonFields fs ++ cbChar :: t))) := by
  cases fs with
  | nil =>
    refine ⟨cbChar :: t, ?_, ?_, Or.inl ⟨rfl, rfl⟩⟩
    · rw [show jsonFields ((k, v) :: []) = quoteStr k ++ (':' :: jsonStr v) from rfl]
      simp [List.append_assoc]
    · intro c r h
      injection h with h1 _
      rw [← h1]; decide
  | cons f fs' =>
    refine ⟨',' :: (jsonFields (f :: fs') ++ cbChar :: t), ?_, ?_, Or.inr ⟨by simp, rfl⟩⟩
    · rw [show jsonFields ((k, v) :: (f :: fs')) =
        (quoteStr k ++ (':' :: jsonStr v)) ++ (',' :: jsonFields (f :: fs')) from rfl]
      simp [List.append_assoc]
    · intro c r h
      injection h with h1 _
      rw [← h1]; decide

theorem jsonStr_det_all : ∀ n : ℕ,
    (∀ v1 v2 t1 t2, sizeV v1 ≤ n → sepOk t1 → sepOk t2 →
      jsonStr v1 ++ t1 = jsonStr v2 ++ t2 → v1 = v2 ∧ t1 = t2) ∧
    (∀ xs1 xs2 t1 t2, sizeL xs1 ≤ n →
      jsonItems xs1 ++ ']' :: t1 = jsonItems xs2 ++ ']' :: t2 → xs1 = xs2 ∧ t1 = t2) ∧
    (∀ fs1 fs2 t1 t2, sizeF fs1 ≤ n →
      jsonFields fs1 ++ cbChar :: t1 = jsonFields fs2 ++ cbChar :: t2 →
      fs1 = fs2 ∧ t1 = t2) := by
  intro n
  induction n using Nat.strong_induction_on with
  | _ n IH =>
  refine ⟨?_, ?_, ?_⟩
  · intro v1 v2 t1 t2 hsz h1 h2 heq
    cases v1 with
    | vNull =>
      cases v2 with
      | vNull =>
        rw [show jsonStr JSValue.vNull = 'n' :: ('u' :: ('l' :: ('l' :: []))) from rfl] at heq
        refine ⟨rfl, ?_⟩
        simpa using heq
      | vBool b2 =>
        cases b2 with
        | true =>
          rw [show jsonStr JSValue.vNull = 'n' :: ('u' :: ('l' :: ('l' :: []))) from rfl,
            show jsonStr (JSValue.vBool true) = 't' :: ('r' :: ('u' :: ('e' :: []))) from rfl] at heq
          exact (head_clash _ _ _ _ _ _ (by decide) heq).elim
        | false =>
          rw [show jsonStr JSValue.vNull = 'n' :: ('u' :: ('l' :: ('l' :: []))) from rfl,
            show jsonStr (JSValue.vBool false) = 'f' :: ('a' :: ('l' :: ('s' :: ('e' :: [])))) from rfl] at heq
          exact (head_clash _ _ _ _ _ _ (by decide) heq).elim
      | vNum m2 e2 =>
        rw [show jsonStr JSValue.vNull = 'n' :: ('u' :: ('l' :: ('l' :: []))) from rfl,
          show jsonStr (JSValue.vNum m2 e2) = decChars m2 e2 from rfl] at heq
        exact (num_head_clash2 _ _ 'n' (by decide) _ _ _ heq).elim
      | vStr s2 =>
        rw [show jsonStr JSValue.vNull = 'n' :: ('u' :: ('l' :: ('l' :: []))) from rfl,
          show jsonStr (JSValue.vStr s2) = '"' :: (escStr s2 ++ ('"' :: [])) from rfl] at heq
        exact (head_clash _ _ _ _ _ _ (by decide) heq).elim
      | vArr ys =>
        rw [show jsonStr JSValue.vNull = 'n' :: ('u' :: ('l' :: ('l' :: []))) from rfl,
          show jsonStr (JSValue.vArr ys) = '[' :: (jsonItems ys ++ (']' :: [])) from rfl] at heq
        exact (head_clash _ _ _ _ _ _ (by decide) heq).elim
      | vObj gs =>
        rw [show jsonStr JSValue.vNull = 'n' :: ('u' :: ('l' :: ('l' :: []))) from rfl,
          show jsonStr (JSValue.vObj gs) = obChar :: (jsonFields gs ++ (cbChar :: [])) from rfl] at heq
        exact (head_clash _ _ _ _ _ _ (by decide) heq).elim
    | vBool b =>
      cases b with
      | true =>
        cases v2 with
        | vNull =>
          rw [show jsonStr (JSValue.vBool true) = 't' :: ('r' :: ('u' :: ('e' :: []))) from rfl,
            show jsonStr JSValue.vNull = 'n' :: ('u' :: ('l' :: ('l' :: []))) from rfl] at heq
          exact (head_clash _ _ _ _ _ _ (by decide) heq).elim
        | vBool b2 =>
          cases b2 with
          | true =>
            rw [show jsonStr (JSValue.vBool true) = 't' :: ('r' :: ('u' :: ('e' :: []))) from rfl] at heq
            refine ⟨rfl, ?_⟩
            simpa using heq
          | false =>
            rw [show jsonStr (JSValue.vBool true) = 't' :: ('r' :: ('u' :: ('e' :: []))) from rfl,
              show jsonStr (JSValue.vBool false) = 'f' :: ('a' :: ('l' :: ('s' :: ('e' :: [])))) from rfl] at heq
            exact (head_clash _ _ _ _ _ _ (by decide) heq).elim
        | vNum m2 e2 =>
          rw [show jsonStr (JSValue.vBool true) = 't' :: ('r' :: ('u' :: ('e' :: []))) from rfl,
            show jsonStr (JSValue.vNum m2 e2) = decChars m2 e2 from rfl] at heq
          exact (num_head_clash2 _ _ 't' (by decide) _ _ _ heq).elim
        | vStr s2 =>
          rw [show jsonStr (JSValue.vBool true) = 't' :: ('r' :: ('u' :: ('e' :: []))) from rfl,
            show jsonStr (JSValue.vStr s2) = '"' :: (escStr s2 ++ ('"' :: [])) from rfl] at heq
          exact (head_clash _ _ _ _ _ _ (by decide) heq).elim
        | vArr ys =>
          rw [show jsonStr (JSValue.vBool true) = 't' :: ('r' :: ('u' :: ('e' :: []))) from rfl,
            show jsonStr (JSValue.vArr ys) = '[' :: (jsonItems ys ++ (']' :: [])) from rfl] at heq
          exact (head_clash _ _ _ _ _ _ (by decide) heq).elim
        | vObj gs =>
          rw [show jsonStr (JSValue.vBool true) = 't' :: ('r' :: ('u' :: ('e' :: []))) from rfl,
            show jsonStr (JSValue.vObj gs) = obChar :: (jsonFields gs ++ (cbChar :: [])) from rfl] at heq
          exact (head_clash _ _ _ _ _ _ (by decide) heq).elim
      | false =>
        cases v2 with
        | vNull =>
          rw [show jsonStr (JSValue.vBool false) = 'f' :: ('a' :: ('l' :: ('s' :: ('e' :: [])))) from rfl,
            show jsonStr JSValue.vNull = 'n' :: ('u' :: ('l' :: ('l' :: []))) from rfl] at heq
          exact (head_clash _ _ _ _ _ _ (by decide) heq).elim
        | vBool b2 =>
          cases b2 with
          | true =>
            rw [show jsonStr (JSValue.vBool false) = 'f' :: ('a' :: ('l' :: ('s' :: ('e' :: [])))) from rfl,
              show jsonStr (JSValue.vBool true) = 't' :: ('r' :: ('u' :: ('e' :: []))) from rfl] at heq
            exact (head_clash _ _ _ _ _ _ (by decide) heq).elim
          | false =>
            rw [show jsonStr (JSValue.vBool false) = 'f' :: ('a' :: ('l' :: ('s' :: ('e' :: [])))) from rfl] at heq
            refine ⟨rfl, ?_⟩
            simpa using heq
        | vNum m2 e2 =>
          rw [show jsonStr (JSValue.vBool false) = 'f' :: ('a' :: ('l' :: ('s' :: ('e' :: [])))) from rfl,
            show jsonStr (JSValue.vNum m2 e2) = decChars m2 e2 from rfl] at heq
          exact (num_head_clash2 _ _ 'f' (by decide) _ _ _ heq).elim
        | vStr s2 =>
          rw [show jsonStr (JSValue.vBool false) = 'f' :: ('a' :: ('l' :: ('s' :: ('e' :: [])))) from rfl,
            show jsonStr (JSValue.vStr s2) = '"' :: (escStr s2 ++ ('"' :: [])) from rfl] at heq
          exact (head_clash _ _ _ _ _ _ (by decide) heq).elim
        | vArr ys =>
          rw [show jsonStr (JSValue.vBool false) = 'f' :: ('a' :: ('l' :: ('s' :: ('e' :: [])))) from rfl,
            show jsonStr (JSValue.vArr ys) = '[' :: (jsonItems ys ++ (']' :: [])) from rfl] at heq
          exact (head_clash _ _ _ _ _ _ (by decide) heq).elim
        | vObj gs =>
          rw [show jsonStr (JSValue.vBool false) = 'f' :: ('a' :: ('l' :: ('s' :: ('e' :: [])))) from rfl,
            show jsonStr (JSValue.vObj gs) = obChar :: (jsonFields gs ++ (cbChar :: [])) from rfl] at heq
          exact (head_clash _ _ _ _ _ _ (by decide) heq).elim
    | vNum m e =>
      cases v2 with
      | vNull =>
        rw [show jsonStr (JSValue.vNum m e) = decChars m e from rfl,
          show jsonStr JSValue.vNull = 'n' :: ('u' :: ('l' :: ('l' :: []))) from rfl] at heq
        exact (num_head_clash _ _ 'n' (by decide) _ _ _ heq).elim
      | vBool b2 =>
        cases b2 with
        | true =>
          rw [show jsonStr (JSValue.vNum m e) = decChars m e from rfl,
            show jsonStr (JSValue.vBool true) = 't' :: ('r' :: ('u' :: ('e' :: []))) from rfl] at heq
          exact (num_head_clash _ _ 't' (by decide) _ _ _ heq).elim
        | false =>
          rw [show jsonStr (JSValue.vNum m e) = decChars m e from rfl,
            show jsonStr (JSValue.vBool false) = 'f' :: ('a' :: ('l' :: ('s' :: ('e' :: [])))) from rfl] at heq
          exact (num_head_clash _ _ 'f' (by decide) _ _ _ heq).elim
      | vNum m2 e2 =>
        rw [show jsonStr (JSValue.vNum m e) = decChars m e from rfl,
          show jsonStr (JSValue.vNum m2 e2) = decChars m2 e2 from rfl] at heq
        obtain ⟨hT1, hD1⟩ := takeWhile_stop numCh (decChars m e) t1 (decChars_all m e) h1
        obtain ⟨hT2, hD2⟩ := takeWhile_stop numCh (decChars m2 e2) t2 (decChars_all m2 e2) h2
        have hdc : decChars m e = decChars m2 e2 := by rw [← hT1, ← hT2, heq]
        have hts : t1 = t2 := by rw [← hD1, ← hD2, heq]
        obtain ⟨hm, he⟩ := decChars_inj _ _ _ _ hdc
        exact ⟨by rw [hm, he], hts⟩
      | vStr s2 =>
        rw [show jsonStr (JSValue.vNum m e) = decChars m e from rfl,
          show jsonStr (JSValue.vStr s2) = '"' :: (escStr s2 ++ ('"' :: [])) from rfl] at heq
        exact (num_head_clash _ _ '"' (by decide) _ _ _ heq).elim
      | vArr ys =>
        rw [show jsonStr (JSValue.vNum m e) = decChars m e from rfl,
          show jsonStr (JSValue.vArr ys) = '[' :: (jsonItems ys ++ (']' :: [])) from rfl] at heq
        exact (num_head_clash _ _ '[' (by decide) _ _ _ heq).elim
      | vObj gs =>
        rw [show jsonStr (JSValue.vNum m e) = decChars m e from rfl,
          show jsonStr (JSValue.vObj gs) = obChar :: (jsonFields gs ++ (cbChar :: [])) from rfl] at heq
        exact (num_head_clash _ _ obChar (by decide) _ _ _ heq).elim
    | vStr s =>
      cases v2 with
      | vNull =>
        rw [show jsonStr (JSValue.vStr s) = '"' :: (escStr s ++ ('"' :: [])) from rfl,
          show jsonStr JSValue.vNull = 'n' :: ('u' :: ('l' :: ('l' :: []))) from rfl] at heq
        exact (head_clash _ _ _ _ _ _ (by decide) heq).elim
      | vBool b2 =>
        cases b2 with
        | true =>
          rw [show jsonStr (JSValue.vStr s) = '"' :: (escStr s ++ ('"' :: [])) from rfl,
            show jsonStr (JSValue.vBool true) = 't' :: ('r' :: ('u' :: ('e' :: []))) from rfl] at heq
          exact (head_clash _ _ _ _ _ _ (by decide) heq).elim
        | false =>
          rw [show jsonStr (JSValue.vStr s) = '"' :: (escStr s ++ ('"' :: [])) from rfl,
            show jsonStr (JSValue.vBool false) = 'f' :: ('a' :: ('l' :: ('s' :: ('e' :: [])))) from rfl] at heq
          exact (head_clash _ _ _ _ _ _ (by decide) heq).elim
      | vNum m2 e2 =>
        rw [show jsonStr (JSValue.vStr s) = '"' :: (escStr s ++ ('"' :: [])) from rfl,
          show jsonStr (JSValue.vNum m2 e2) = decChars m2 e2 from rfl] at heq
        exact (num_head_clash2 _ _ '"' (by decide) _ _ _ heq).elim
      | vStr s2 =>
        rw [show jsonStr (JSValue.vStr s) = quoteStr s from rfl,
          show jsonStr (JSValue.vStr s2) = quoteStr s2 from rfl] at heq
        obtain ⟨hs, ht⟩ := quoteStr_det _ _ _ _ heq
        exact ⟨by rw [hs], ht⟩
      | vArr ys =>
        rw [show jsonStr (JSValue.vStr s) = '"' :: (escStr s ++ ('"' :: [])) from rfl,
          show jsonStr (JSValue.vArr ys) = '[' :: (jsonItems ys ++ (']' :: [])) from rfl] at heq
        exact (head_clash _ _ _ _ _ _ (by decide) heq).elim
      | vObj gs =>
        rw [show jsonStr (JSValue.vStr s) = '"' :: (escStr s ++ ('"' :: [])) from rfl,
          show jsonStr (JSValue.vObj gs) = obChar :: (jsonFields gs ++ (cbChar :: [])) from rfl] at heq
        exact (head_clash _ _ _ _ _ _ (by decide) heq).elim
    | vArr xs =>
      cases v2 with
      | vNull =>
        rw [show jsonStr (JSValue.vArr xs) = '[' :: (jsonItems xs ++ (']' :: [])) from rfl,
          show jsonStr JSValue.vNull = 'n' :: ('u' :: ('l' :: ('l' :: []))) from rfl] at heq
        exact (head_clash _ _ _ _ _ _ (by decide) heq).elim
      | vBool b2 =>
        cases b2 with
        | true =>
          rw [show jsonStr (JSValue.vArr xs) = '[' :: (jsonItems xs ++ (']' :: [])) from rfl,
            show jsonStr (JSValue.vBool true) = 't' :: ('r' :: ('u' :: ('e' :: []))) from rfl] at heq
          exact (head_clash _ _ _ _ _ _ (by decide) heq).elim
        | false =>
          rw [show jsonStr (JSValue.vArr xs) = '[' :: (jsonItems xs ++ (']' :: [])) from rfl,
            show jsonStr (JSValue.vBool false) = 'f' :: ('a' :: ('l' :: ('s' :: ('e' :: [])))) from rfl] at heq
          exact (head_clash _ _ _ _ _ _ (by decide) heq).elim
      | vNum m2 e2 =>
        rw [show jsonStr (JSValue.vArr xs) = '[' :: (jsonItems xs ++ (']' :: [])) from rfl,
          show jsonStr (JSValue.vNum m2 e2) = decChars m2 e2 from rfl] at heq
        exact (num_head_clash2 _ _ '[' (by decide) _ _ _ heq).elim
      | vStr s2 =>
        rw [show jsonStr (JSValue.vArr xs) = '[' :: (jsonItems xs ++ (']' :: [])) from rfl,
          show jsonStr (JSValue.vStr s2) = '"' :: (escStr s2 ++ ('"' :: [])) from rfl] at heq
        exact (head_clash _ _ _ _ _ _ (by decide) heq).elim
      | vArr ys =>
        rw [show jsonStr (JSValue.vArr xs) = '[' :: (jsonItems xs ++ (']' :: [])) from rfl,
          show jsonStr (JSValue.vArr ys) = '[' :: (jsonItems ys ++ (']' :: [])) from rfl] at heq
        simp only [List.cons_append, List.append_assoc, List.nil_append] at heq
        injection heq with hhd heq2
        have hx : sizeL xs + 1 ≤ n := hsz
        have hlt : n - 1 < n := by omega
        obtain ⟨hxs, hts⟩ := (IH (n - 1) hlt).2.1 xs ys t1 t2 (by omega) heq2
        exact ⟨by rw [hxs], hts⟩
      | vObj gs =>
        rw [show jsonStr (JSValue.vArr xs) = '[' :: (jsonItems xs ++ (']' :: [])) from rfl,
          show jsonStr (JSValue.vObj gs) = obChar :: (jsonFields gs ++ (cbChar :: [])) from rfl] at heq
        exact (head_clash _ _ _ _ _ _ (by decide) heq).elim
    | vObj fs =>
      cases v2 with
      | vNull =>
        rw [show jsonStr (JSValue.vObj fs) = obChar :: (jsonFields fs ++ (cbChar :: [])) from rfl,
          show jsonStr JSValue.vNull = 'n' :: ('u' :: ('l' :: ('l' :: []))) from rfl] at heq
        exact (head_clash _ _ _ _ _ _ (by decide) heq).elim
      | vBool b2 =>
        cases b2 with
        | true =>
          rw [show jsonStr (JSValue.vObj fs) = obChar :: (jsonFields fs ++ (cbChar :: [])) from rfl,
            show jsonStr (JSValue.vBool true) = 't' :: ('r' :: ('u' :: ('e' :: []))) from rfl] at heq
          exact (head_clash _ _ _ _ _ _ (by decide) heq).elim
        | false =>
          rw [show jsonStr (JSValue.vObj fs) = obChar :: (jsonFields fs ++ (cbChar :: [])) from rfl,
            show jsonStr (JSValue.vBool false) = 'f' :: ('a' :: ('l' :: ('s' :: ('e' :: [])))) from rfl] at heq
          exact (head_clash _ _ _ _ _ _ (by decide) heq).elim
      | vNum m2 e2 =>
        rw [show jsonStr (JSValue.vObj fs) = obChar :: (jsonFields fs ++ (cbChar :: [])) from rfl,
          show jsonStr (JSValue.vNum m2 e2) = decChars m2 e2 from rfl] at heq
        exact (num_head_clash2 _ _ obChar (by decide) _ _ _ heq).elim
      | vStr s2 =>
        rw [show jsonStr (JSValue.vObj fs) = obChar :: (jsonFields fs ++ (cbChar :: [])) from rfl,
          show jsonStr (JSValue.vStr s2) = '"' :: (escStr s2 ++ ('"' :: [])) from rfl] at heq
        exact (head_clash _ _ _ _ _ _ (by decide) heq).elim
      | vArr ys =>
        rw [show jsonStr (JSValue.vObj fs) = obChar :: (jsonFields fs ++ (cbChar :: [])) from rfl,
          show jsonStr (JSValue.vArr ys) = '[' :: (jsonItems ys ++ (']' :: [])) from rfl] at heq
        exact (head_clash _ _ _ _ _ _ (by decide) heq).elim
      | vObj gs =>
        rw [show jsonStr (JSValue.vObj fs) = obChar :: (jsonFields fs ++ (cbChar :: [])) from rfl,
          show jsonStr (JSValue.vObj gs) = obChar :: (jsonFields gs ++ (cbChar :: [])) from rfl] at heq
        simp only [List.cons_append, List.append_assoc, List.nil_append] at heq
        injection heq with hhd heq2
        have hx : sizeF fs + 1 ≤ n := hsz
        have hlt : n - 1 < n := by omega
        obtain ⟨hfs, hts⟩ := (IH (n - 1) hlt).2.2 fs gs t1 t2 (by omega) heq2
        exact ⟨by rw [hfs], hts⟩
  · intro xs1 xs2 t1 t2 hsz heq
    cases xs1 with
    | nil =>
      cases xs2 with
      | nil =>
        refine ⟨rfl, ?_⟩
        rw [show jsonItems [] = ([] : Str) from rfl] at heq
        simpa using heq
      | cons y ys =>
        obtain ⟨u, hu, hsep, hcase⟩ := jsonItems_split2 y ys t2
        rw [show jsonItems [] = ([] : Str) from rfl, List.nil_append, hu] at heq
        obtain ⟨c, r, hc, hcls⟩ := jsonStr_head y
        rw [hc] at heq
        simp only [List.cons_append] at heq
        injection heq with hh hrest
        rcases hcls with h | h | h | h | h | h | h
        · rw [h] at hh; exact absurd hh (by decide)
        · rw [h] at hh; exact absurd hh (by decide)
        · rw [h] at hh; exact absurd hh (by decide)
        · rw [← hh] at h; exact absurd h (by decide)
        · rw [h] at hh; exact absurd hh (by decide)
        · rw [h] at hh; exact absurd hh (by decide)
        · rw [h] at hh; exact absurd hh (by decide)
    | cons x xs' =>
      cases xs2 with
      | nil =>
        obtain ⟨u, hu, hsep, hcase⟩ := jsonItems_split2 x xs' t1
        rw [show jsonItems [] = ([] : Str) from rfl, List.nil_append, hu] at heq
        obtain ⟨c, r, hc, hcls⟩ := jsonStr_head x
        rw [hc] at heq
        simp only [List.cons_append] at heq
        injection heq with hh hrest
        rcases hcls with h | h | h | h | h | h | h
        · rw [h] at hh; exact absurd hh (by decide)
        · rw [h] at hh; exact absurd hh (by decide)
        · rw [h] at hh; exact absurd hh (by decide)
        · rw [hh] at h; exact absurd h (by decide)
        · rw [h] at hh; exact absurd hh (by decide)
        · rw [h] at hh; exact absurd hh (by decide)
        · rw [h] at hh; exact absurd hh (by decide)
      | cons y ys =>
        obtain ⟨u1, hu1, hsep1, hcase1⟩ := jsonItems_split2 x xs' t1
        obtain ⟨u2, hu2, hsep2, hcase2⟩ := jsonItems_split2 y ys t2
        rw [hu1, hu2] at heq
        have hx : sizeV x + sizeL xs' ≤ n := hsz
        have h1p := sizeV_pos x
        have h2p := sizeL_pos xs'
        have hlt : n - 1 < n := by omega
        obtain ⟨hxy, hu⟩ := (IH (n - 1) hlt).1 x y u1 u2 (by omega) hsep1 hsep2 heq
        rcases hcase1 with ⟨hys1, hue1⟩ | ⟨hys1, hue1⟩ <;>
          rcases hcase2 with ⟨hys2, hue2⟩ | ⟨hys2, hue2⟩
        · subst hys1; subst hys2
          rw [hue1, hue2] at hu
          injection hu with hhd ht
          exact ⟨by rw [hxy], ht⟩
        · rw [hue1, hue2] at hu
          injection hu with hh ht
          exact absurd hh (by decide)
        · rw [hue1, hue2] at hu
          injection hu with hh ht
          exact absurd hh (by decide)
        · rw [hue1, hue2] at hu
          injection hu with hhd ht
          obtain ⟨hxs, ht2⟩ := (IH (n - 1) hlt).2.1 xs' ys t1 t2 (by omega) ht
          exact ⟨by rw [hxy, hxs], ht2⟩
  · intro fs1 fs2 t1 t2 hsz heq
    cases fs1 with
    | nil =>
      cases fs2 with
      | nil =>
        refine ⟨rfl, ?_⟩
        rw [show jsonFields [] = ([] : Str) from rfl] at heq
        simpa using heq
      | cons g gs =>
        obtain ⟨k2, v2⟩ := g
        obtain ⟨u, hu, hsep, hcase⟩ := jsonFields_split2 k2 v2 gs t2
        rw [show jsonFields [] = ([] : Str) from rfl, List.nil_append, hu] at heq
        rw [show quoteStr k2 = '"' :: (escStr k2 ++ ('"' :: [])) from rfl] at heq
        simp only [List.cons_append] at heq
        injection heq with hh hrest
        exact absurd hh (by decide)
    | cons f fs' =>
      obtain ⟨k1, v1⟩ := f
      cases fs2 with
      | nil =>
        obtain ⟨u, hu, hsep, hcase⟩ := jsonFields_split2 k1 v1 fs' t1
        rw [show jsonFields [] = ([] : Str) from rfl, List.nil_append, hu] at heq
        rw [show quoteStr k1 = '"' :: (escStr k1 ++ ('"' :: [])) from rfl] at heq
        simp only [List.cons_append] at heq
        injection heq with hh hrest
        exact absurd hh (by decide)
      | cons g gs =>
        obtain ⟨k2, v2⟩ := g
        obtain ⟨u1, hu1, hsep1, hcase1⟩ := jsonFields_split2 k1 v1 fs' t1
        obtain ⟨u2, hu2, hsep2, hcase2⟩ := jsonFields_split2 k2 v2 gs t2
        rw [hu1, hu2] at heq
        obtain ⟨hk, hrest⟩ := quoteStr_det _ _ _ _ heq
        injection hrest with hcol hrest2
        have hx : sizeV v1 + sizeF fs' ≤ n := hsz
        have h1p := sizeV_pos v1
        have h2p := sizeF_pos fs'
        have hlt : n - 1 < n := by omega
        obtain ⟨hv, hu⟩ := (IH (n - 1) hlt).1 v1 v2 u1 u2 (by omega) hsep1 hsep2 hrest2
        rcases hcase1 with ⟨hg1, hue1⟩ | ⟨hg1, hue1⟩ <;>
          rcases hcase2 with ⟨hg2, hue2⟩ | ⟨hg2, hue2⟩
        · subst hg1; subst hg2
          rw [hue1, hue2] at hu
          injection hu with hhd ht
          exact ⟨by rw [hk, hv], ht⟩
        · rw [hue1, hue2] at hu
          injection hu with hh ht
          exact absurd hh (by decide)
        · rw [hue1, hue2] at hu
          injection hu with hh ht
          exact absurd hh (by decide)
        · rw [hue1, hue2] at hu
          injection hu with hhd ht
          obtain ⟨hfs, ht2⟩ := (IH (n - 1) hlt).2.2 fs' gs t1 t2 (by omega) ht
          exact ⟨by rw [hk, hv, hfs], ht2⟩

/-- C7: the change gate `JSON.stringify(data) !== JSON.stringify(currentData)`
is reflexively false, symmetric, and (over payloads whose numbers are in
their canonical decimal form, as `resp.json()` yields them) returns
`false` only when the two payloads are structurally identical — any
added, removed or reordered key, or changed value, yields `true`. -/
theorem c7_change_gate :
    (∀ x, hasChanged x x = false) ∧
    (∀ x y, hasChanged x y = hasChanged y x) ∧
    (∀ x y, isCanonV x = true → isCanonV y = true →
      hasChanged x y = false → x = y) := by
  refine ⟨?_, ?_, ?_⟩
  · intro x
    unfold hasChanged
    rw [if_pos rfl]
  · intro x y
    unfold hasChanged
    by_cases h : jsonStr x = jsonStr y
    · rw [if_pos h, if_pos h.symm]
    · rw [if_neg h, if_neg (fun h2 => h h2.symm)]
  · intro x y hcx hcy h
    unfold hasChanged at h
    by_cases he : jsonStr x = jsonStr y
    · have heq : jsonStr x ++ ([] : Str) = jsonStr y ++ ([] : Str) := by
        rw [List.append_nil, List.append_nil, he]
      exact ((jsonStr_det_all (sizeV x)).1 x y [] [] le_rfl
        (fun c r hcr => List.noConfusion hcr)
        (fun c r hcr => List.noConfusion hcr) heq).1
    · rw [if_neg he] at h
      exact Bool.noConfusion h

/-- C7 witness: the gate is false on a concrete payload compared with
itself, and the only-if direction applied at concrete canonical payloads
with every hypothesis checked by evaluation. -/
theorem c7_witness :
    hasChanged scenarioPayload scenarioPayload = false ∧
    JSValue.vObj (((('a') :: []), JSValue.vNum 25005 1) :: []) =
      JSValue.vObj (((('a') :: []), JSValue.vNum 25005 1) :: []) :=
  ⟨c7_change_gate.1 scenarioPayload,
    c7_change_gate.2.2 _ _ (by decide) (by decide) (by decide)⟩
